import Mathlib

/-!
# Verification of the agent-loop patch engine

A shallow embedding, in Lean 4, of the patch/diff engine of the agent-loop
repository.  Text is modelled as `List Char` (one entry per UTF-16 code unit
of the JavaScript string; every input we reason about is ASCII, where the two
notions of indexing agree).  File contents live in a functional file-system
model `FS := List Char → Option (List Char)`.  Fallible code returns
`Except String`; the carried strings are the messages of the JavaScript
`Error` values thrown by the source.

The external `diff` npm library (`createTwoFilesPatch`, `parsePatch`,
`applyPatch`) is not part of the repository; functions that call it are
parameterised over an arbitrary implementation (`DiffLib` below), so theorems
about them hold for every implementation of that library.
-/

namespace AgentLoop

/-! ## Basic text utilities (JavaScript string semantics on `List Char`) -/

/-- The `needle` occurs in `hay` starting at position `i`. -/
def matchesAt (hay needle : List Char) (i : Nat) : Bool :=
  needle.isPrefixOf (hay.drop i)

/-- JavaScript `hay.indexOf(needle, start)`: the smallest position `i ≥ start`
at which `needle` occurs, `none` when there is no occurrence (`-1` in JS). -/
def indexOfFrom (hay needle : List Char) (start : Nat) : Option Nat :=
  (List.range (hay.length + 1)).find? (fun i => decide (start ≤ i) && matchesAt hay needle i)

/-- JavaScript `s.split(c)` for a single-character separator: always returns at
least one (possibly empty) piece. -/
def splitOnChar (c : Char) : List Char → List (List Char)
  | [] => [[]]
  | x :: xs =>
    if x = c then [] :: splitOnChar c xs
    else
      match splitOnChar c xs with
      | [] => [[x]]
      | y :: ys => (x :: y) :: ys

/-- JavaScript `parts.join("\n")`. -/
def joinLines : List (List Char) → List Char
  | [] => []
  | [l] => l
  | l :: ls => l ++ '\n' :: joinLines ls

/-- Remove trailing whitespace (the `\s*$` part of the JS regexes used here). -/
def dropTrailingWs (cs : List Char) : List Char :=
  (cs.reverse.dropWhile (fun c => c.isWhitespace)).reverse

/-- JavaScript `s.trim()`. -/
def jsTrim (cs : List Char) : List Char :=
  (dropTrailingWs cs).dropWhile (fun c => c.isWhitespace)

/-- JavaScript `s.substring(a, b)`: clamps both arguments to `[0, length]` and
swaps them when `a > b`. -/
def substringJS (cs : List Char) (a b : Nat) : List Char :=
  let a' := min a cs.length
  let b' := min b cs.length
  (cs.take (max a' b')).drop (min a' b')

/-- One global-regex replacement pass, `s.replace(/pat/g, rep)` for a literal
pattern: leftmost-first, non-overlapping.  Structural on a fuel argument so
that the kernel can evaluate it. -/
def replaceAllSub (pat rep : List Char) : Nat → List Char → List Char
  | 0, cs => cs
  | _, [] => []
  | fuel + 1, c :: rest =>
    if pat ≠ [] ∧ pat.isPrefixOf (c :: rest) then
      rep ++ replaceAllSub pat rep fuel ((c :: rest).drop pat.length)
    else
      c :: replaceAllSub pat rep fuel rest

/-- The `s.replace(/pat/g, rep)` with fuel instantiated. -/
def jsReplaceAll (pat rep cs : List Char) : List Char :=
  replaceAllSub pat rep cs.length cs

/-- Decimal digits to a number, JavaScript `parseInt` on a digit string. -/
def parseDigits (ds : List Char) : Nat :=
  ds.foldl (fun a c => a * 10 + (c.toNat - '0'.toNat)) 0

/-! ## TextEditResolver (`applyEditsToText` and helpers, project-analysis.ts)

Source, translated clause by clause:

```
function findNthIndex(haystack, needle, n) {
  if (n <= 0) return -1;
  let from = 0;
  for (let i = 0; i < n; i++) {
    const idx = haystack.indexOf(needle, from);
    if (idx === -1) return -1;
    from = idx + needle.length;
    if (i === n - 1) return idx;
  }
  return -1;
}
```
-/

/-- The loop of `findNthIndex`, starting the scan at `start` with `n`
occurrences still to find. -/
def findNthFrom (hay needle : List Char) (start : Nat) : Nat → Option Nat
  | 0 => none
  | n + 1 =>
    match indexOfFrom hay needle start with
    | none => none
    | some idx =>
      if n = 0 then some idx
      else findNthFrom hay needle (idx + needle.length) n

/-- The `findNthIndex(haystack, needle, n)`: the `n`-th (1-based) occurrence found
by sequential `indexOf` scanning that advances past each prior match. -/
def findNthIndex (hay needle : List Char) (n : Nat) : Option Nat :=
  findNthFrom hay needle 0 n

/-- The list of occurrence positions found by the sequential scan of
`findNthIndex`: repeated `indexOf`, each scan resuming just past the previous
match.  `fuel` bounds the number of scans (structural recursion). -/
def occIdxsAux (hay needle : List Char) : Nat → Nat → List Nat
  | _, 0 => []
  | start, fuel + 1 =>
    match indexOfFrom hay needle start with
    | none => []
    | some idx => idx :: occIdxsAux hay needle (idx + needle.length) fuel

/-- All occurrences of `needle` in `hay`, in the sense of the sequential
`indexOf` scan (for a non-empty needle the fuel `hay.length + 1` is never
exhausted). -/
def occurrenceIdxs (hay needle : List Char) : List Nat :=
  occIdxsAux hay needle 0 (hay.length + 1)

/-- The plan-based `Edit` variants of `FileChangePlan["edits"]`
(project-analysis.ts).  `occurrence` is 1-based and optional. -/
inductive Edit where
  | replace (find replaceWith : List Char) (occurrence : Option Nat)
  | replaceRange (start stop : Nat) (replaceWith : List Char)
  | insertAfter (find insert : List Char) (occurrence : Option Nat)
  | delete (find : List Char) (occurrence : Option Nat)
  deriving DecidableEq

/-- The `ConcreteEdit = { start, end, text }`.  The source field `end` is a Lean
keyword and is called `stop` here. -/
structure ConcreteEdit where
  start : Nat
  stop : Nat
  text : List Char
  deriving DecidableEq

/-- The `editsOverlap(a, b)`: `Math.max(a.start, b.start) < Math.min(a.end, b.end)`. -/
def editsOverlap (a b : ConcreteEdit) : Bool :=
  decide (max a.start b.start < min a.stop b.stop)

/-- Error message of the token-based resolution failure, as thrown by
`applyEditsToText` for each edit kind (`kind` is the literal from the thrown
message: `replace`, `insertAfter` or `delete`). -/
def tokenNotFoundMsg (kind : String) (find : List Char) (n : Nat) : String :=
  "Token not found for " ++ kind ++ ": \"" ++ String.mk find ++
    "\" (occurrence " ++ toString n ++ ")"

/-- Error message for an out-of-range `replaceRange` edit. -/
def invalidRangeMsg (start stop : Nat) : String :=
  "Invalid replaceRange: [" ++ toString start ++ ", " ++ toString stop ++ "]"

/-- Error message of the pairwise overlap check. -/
def overlappingEditsMsg : String :=
  "Overlapping edits detected; refuse to apply ambiguous plan."

/-- The resolution step of `applyEditsToText` for one edit: each branch of the
`for (const e of edits)` loop.  (`start < 0` of the source is vacuous over
`Nat`.) -/
def resolveEdit (original : List Char) : Edit → Except String ConcreteEdit
  | .replaceRange s e r =>
    if e < s ∨ original.length < e then .error (invalidRangeMsg s e)
    else .ok ⟨s, e, r⟩
  | .replace f r occ =>
    let n := occ.getD 1
    match findNthIndex original f n with
    | none => .error (tokenNotFoundMsg "replace" f n)
    | some s => .ok ⟨s, s + f.length, r⟩
  | .insertAfter f ins occ =>
    let n := occ.getD 1
    match findNthIndex original f n with
    | none => .error (tokenNotFoundMsg "insertAfter" f n)
    | some s => .ok ⟨s + f.length, s + f.length, ins⟩
  | .delete f occ =>
    let n := occ.getD 1
    match findNthIndex original f n with
    | none => .error (tokenNotFoundMsg "delete" f n)
    | some s => .ok ⟨s, s + f.length, []⟩

/-- The resolution loop of `applyEditsToText`: resolve in order, first failure
wins. -/
def resolveEdits (original : List Char) : List Edit → Except String (List ConcreteEdit)
  | [] => .ok []
  | e :: es => do
    let c ← resolveEdit original e
    let cs ← resolveEdits original es
    pure (c :: cs)

/-- The `overlapsAny c rest`: the inner `j` loop of the O(n²) overlap check. -/
def overlapsAny (c : ConcreteEdit) (rest : List ConcreteEdit) : Bool :=
  rest.any (fun d => editsOverlap c d)

/-- The nested `i < j` overlap scan of `applyEditsToText`. -/
def anyOverlap : List ConcreteEdit → Bool
  | [] => false
  | c :: rest => overlapsAny c rest || anyOverlap rest

/-- Stable descending insertion by `start`
(`[...concrete].sort((a, b) => b.start - a.start)`; `Array.prototype.sort` is
stable, so ties keep their original relative order). -/
def insertDesc (c : ConcreteEdit) : List ConcreteEdit → List ConcreteEdit
  | [] => [c]
  | d :: ds => if c.start ≥ d.start then c :: d :: ds else d :: insertDesc c ds

/-- Stable sort, descending by `start`. -/
def sortByStartDesc (l : List ConcreteEdit) : List ConcreteEdit :=
  l.foldr insertDesc []

/-- The splice loop: `result = result.slice(0, c.start) + c.text +
result.slice(c.end)`, right-to-left over the sorted concrete edits. -/
def spliceAll (original : List Char) (concrete : List ConcreteEdit) : List Char :=
  (sortByStartDesc concrete).foldl
    (fun res c => res.take c.start ++ c.text ++ res.drop c.stop) original

/-- The `applyEditsToText(original, edits)` (project-analysis.ts): resolve every
edit to a concrete range, reject overlapping ranges, then splice right to
left. -/
def applyEditsToText (original : List Char) (edits : List Edit) : Except String (List Char) := do
  let concrete ← resolveEdits original edits
  if anyOverlap concrete then throw overlappingEditsMsg
  else pure (spliceAll original concrete)

/-! ## DiffSynthesizer (`generateUnifiedDiffForFile`, `planToUnifiedDiffs`)

These call the external `diff` npm library.  The library is not repository
code, so the functions are parameterised over an arbitrary implementation:
`α` is the parsed-patch type of the library, `applyPatch` returns `none` where the
library returns `false`. -/

/-- The import surface of the `diff` npm library used by
`generateUnifiedDiffForFile`.  `createTwoFilesPatch` receives the two labels,
the two texts, the two headers and the context size. -/
structure DiffLib (α : Type) where
  createTwoFilesPatch :
    List Char → List Char → List Char → List Char → List Char → List Char → Nat → List Char
  parsePatch : List Char → List α
  applyPatch : List Char → α → Option (List Char)

/-- Message of the self-verification failure (`DiffVerificationFailed`). -/
def diffVerificationFailedMsg : String :=
  "Self-apply verification failed; refusing to emit unsafe diff."

/-- The `generateUnifiedDiffForFile(filePath, oldText, editedText)`: create a
unified diff with `a/`/`b/` labels and 3 context lines, then parse the
just-generated diff, apply it to `oldText` and refuse to return the diff
unless the round trip reproduces `editedText` exactly.  The `parsed[0]`
access on an empty parse (which in the source would make `applyPatch` throw)
is likewise a failure. -/
def generateUnifiedDiffForFile (lib : DiffLib α) (filePath oldText editedText : List Char) :
    Except String (List Char) :=
  let oldLabel := 'a' :: '/' :: filePath
  let newLabel := 'b' :: '/' :: filePath
  let patch := lib.createTwoFilesPatch oldLabel newLabel oldText editedText
    "old".toList "new".toList 3
  match (lib.parsePatch patch).head? with
  | none => .error diffVerificationFailedMsg
  | some parsed0 =>
    match lib.applyPatch oldText parsed0 with
    | none => .error diffVerificationFailedMsg
    | some roundTrip =>
      if roundTrip = editedText then .ok patch
      else .error diffVerificationFailedMsg

/-- The `FileChangePlan = { filePath, edits }`. -/
structure FileChangePlan where
  filePath : List Char
  edits : List Edit

/-- The `Plan = { changes }`. -/
structure Plan where
  changes : List FileChangePlan

/-- The per-file body of `planToUnifiedDiffs`: read the current text through
the injected reader, resolve and apply the edits, synthesize and verify the
diff. -/
def processChange (lib : DiffLib α) (readFileFn : List Char → Except String (List Char))
    (fc : FileChangePlan) : Except String (List Char × List Char) := do
  let oldText ← readFileFn fc.filePath
  let newText ← applyEditsToText oldText fc.edits
  let diff ← generateUnifiedDiffForFile lib fc.filePath oldText newText
  pure (fc.filePath, diff)

/-- The `Promise.all` over `plan.changes`: all-or-nothing, results in input
order (the concurrent execution of the source is observationally this sequential
traversal, since the files share no state and `Promise.all` preserves order
and rejects when any entry rejects). -/
def mapChanges (lib : DiffLib α) (readFileFn : List Char → Except String (List Char)) :
    List FileChangePlan → Except String (List (List Char × List Char))
  | [] => .ok []
  | fc :: rest => do
    let r ← processChange lib readFileFn fc
    let rs ← mapChanges lib readFileFn rest
    pure (r :: rs)

/-- The `planToUnifiedDiffs(plan, readFileFn)`. -/
def planToUnifiedDiffs (lib : DiffLib α) (readFileFn : List Char → Except String (List Char))
    (plan : Plan) : Except String (List (List Char × List Char)) :=
  mapChanges lib readFileFn plan.changes

/-! ## InstructionToHunkCompiler (`generate_patch` and helpers)

The file system is modelled as a partial map from paths to contents. -/

/-- Functional file-system model: `fs p = some content` when file `p` exists. -/
abbrev FS := List Char → Option (List Char)

/-- Point update of the file-system model (`fs.writeFile`). -/
def fsWrite (fs : FS) (p content : List Char) : FS :=
  fun q => if q = p then some content else fs q

/-- The `${lines[i]}` in a template literal: the line at `i`, or the string
`"undefined"` when the index is out of bounds (JavaScript interpolates the
`undefined` value as that text). -/
def lineAt (lines : List (List Char)) (i : Nat) : List Char :=
  lines.getD i "undefined".toList

/-- A generated hunk, holding exactly the numbers the source interpolates into
the `@@ -oldStart,oldLines +newStart,newLines @@` header (as JavaScript
numbers, hence `Int`) and the prefixed body lines it pushes. -/
structure GenHunk where
  oldStart : Int
  oldLines : Int
  newStart : Int
  newLines : Int
  body : List (List Char)
  deriving DecidableEq

/-- Number of `-`-prefixed body lines of a generated hunk. -/
def removedCount (h : GenHunk) : Nat :=
  h.body.countP (fun l => l.head? = some '-')

/-- Number of `+`-prefixed body lines of a generated hunk. -/
def addedCount (h : GenHunk) : Nat :=
  h.body.countP (fun l => l.head? = some '+')

/-- The rendered `@@ ... @@` header line. -/
def renderGenHeader (h : GenHunk) : List Char :=
  "@@ -".toList ++ (toString h.oldStart).toList ++ ',' :: (toString h.oldLines).toList ++
    " +".toList ++ (toString h.newStart).toList ++ ',' :: (toString h.newLines).toList ++
    " @@".toList

/-- The rendered patch text for one generated hunk: the `--- a/` and `+++ b/`
labels, the header and the body, joined with newlines exactly as
`patchLines.join("\n")` in the source. -/
def renderGenPatch (file : List Char) (h : GenHunk) : List Char :=
  joinLines (("--- a/".toList ++ file) :: ("+++ b/".toList ++ file) ::
    renderGenHeader h :: h.body)

/-- Error message of the line-bounds checks in the insert/replace/delete
generators. -/
def invalidLineMsg (line len : Nat) : String :=
  "Invalid line number " ++ toString line ++ ". File has " ++ toString len ++ " lines."

/-- The `findBlockRange(lines, block)`: locate a multi-line block in the joined
lines, convert the character index to a (start, end) line range. -/
def findBlockRange (lines : List (List Char)) (block : List Char) : Option (Nat × Nat) :=
  if block = [] then none
  else
    let haystack := joinLines lines
    match indexOfFrom haystack block 0 with
    | none => none
    | some idx =>
      let before := haystack.take idx
      let start := if before = [] then 0 else (splitOnChar '\n' before).length - 1
      let blockLineCount := (splitOnChar '\n' block).length
      some (start, start + blockLineCount - 1)

/-- The `±5`-line window search shared by the replace and delete generators:
first `i` in `[max(0, line-5), min(len-1, line+5)]` whose line equals
`oldContent` exactly. -/
def windowFind (lines : List (List Char)) (line : Nat) (old : List Char) : Option Nat :=
  let lo := line - 5
  let hi := min (lines.length - 1) (line + 5)
  (List.range' lo (hi + 1 - lo)).find? (fun i => lines[i]? = some old)

/-- Target location logic, identical in `generateReplacePatch` and
`generateDeletePatch` (the source inlines this block twice, verbatim): exact
line match first, then the windowed single-line search, then the whole-file
block match, else `TargetNotFound`.  Only called with non-empty `old`. -/
def locateOldContent (lines : List (List Char)) (line : Nat) (old : List Char) :
    Except String (Nat × Nat) :=
  if lines[line]? = some old then .ok (line, line)
  else
    match windowFind lines line old with
    | some i => .ok (i, i)
    | none =>
      match findBlockRange lines old with
      | some r => .ok r
      | none =>
        .error ("Could not find line matching \"" ++ String.mk old ++
          "\" around line " ++ toString line)

/-- A context body line ` ${lines[i]}`. -/
def ctxLine (lines : List (List Char)) (i : Nat) : List Char := ' ' :: lineAt lines i

/-- A removed body line `-${lines[i]}`. -/
def remLine (lines : List (List Char)) (i : Nat) : List Char := '-' :: lineAt lines i

/-- An added body line `+${line}`. -/
def addLine (l : List Char) : List Char := '+' :: l

/-- A removed body line `-${line}` for a known line. -/
def remWholeLine (l : List Char) : List Char := '-' :: l

/-- The `generateFullFileReplacePatch`: `-` every old line, `+` every new line,
header `@@ -1,old +1,new @@`. -/
def generateFullFileReplaceHunk (lines contentLines : List (List Char)) : GenHunk :=
  { oldStart := 1
    oldLines := (lines.length : Int)
    newStart := 1
    newLines := (contentLines.length : Int)
    body := lines.map remWholeLine ++ contentLines.map addLine }

/-- The hunk built by `generateInsertPatch` (the source interpolates these
numbers into the header and pushes these body lines, then joins). -/
def generateInsertHunk (lines : List (List Char)) (insertLine : Nat) (content : List Char) :
    Except String GenHunk :=
  if lines.length < insertLine then .error (invalidLineMsg insertLine lines.length)
  else
    let contentLines := splitOnChar '\n' content
    let patchStart := insertLine - 3
    let patchEnd := min lines.length (insertLine + 3)
    .ok
      { oldStart := (patchStart : Int) + 1
        oldLines := (patchEnd : Int) - (patchStart : Int)
        newStart := (patchStart : Int) + 1
        newLines := (patchEnd : Int) - (patchStart : Int) + (contentLines.length : Int)
        body :=
          (List.range' patchStart (insertLine - patchStart)).map (ctxLine lines)
            ++ contentLines.map addLine
            ++ (List.range' insertLine (patchEnd - insertLine)).map (ctxLine lines) }

/-- The `generateInsertPatch(file, lines, insertLine, content)`. -/
def generateInsertPatch (file : List Char) (lines : List (List Char)) (insertLine : Nat)
    (content : List Char) : Except String (List Char) :=
  (generateInsertHunk lines insertLine content).map (renderGenPatch file)

/-- The hunk built by `generateReplacePatch`: bounds check, the two whole-file
special cases, target location, then context/removed/added body lines. -/
def generateReplaceHunk (lines : List (List Char)) (line : Nat) (oldContent newContent : List Char) :
    Except String GenHunk :=
  if lines.length < line then .error (invalidLineMsg line lines.length)
  else
    let contentLines := splitOnChar '\n' newContent
    if line = 0 ∧ oldContent = [] then .ok (generateFullFileReplaceHunk lines contentLines)
    else if oldContent ≠ [] ∧ jsTrim oldContent = jsTrim (joinLines lines) then
      .ok (generateFullFileReplaceHunk lines contentLines)
    else do
      let (rs, re) ← if oldContent = [] then pure (line, line)
        else locateOldContent lines line oldContent
      let patchStart := rs - 3
      let patchEnd := min lines.length (re + 3 + 1)
      pure
        { oldStart := (patchStart : Int) + 1
          oldLines := (patchEnd : Int) - (patchStart : Int)
          newStart := (patchStart : Int) + 1
          newLines := (patchEnd : Int) - (patchStart : Int) - ((re : Int) - (rs : Int) + 1)
            + (contentLines.length : Int)
          body :=
            (List.range' patchStart (rs - patchStart)).map (ctxLine lines)
              ++ (List.range' rs (re + 1 - rs)).map (remLine lines)
              ++ contentLines.map addLine
              ++ (List.range' (re + 1) (patchEnd - (re + 1))).map (ctxLine lines) }

/-- The `generateReplacePatch` (the trailing `context` parameter of the source is
declared but never used). -/
def generateReplacePatch (file : List Char) (lines : List (List Char)) (line : Nat)
    (oldContent newContent : List Char) (_contextArg : Option (List Char)) :
    Except String (List Char) :=
  (generateReplaceHunk lines line oldContent newContent).map (renderGenPatch file)

/-- The hunk built by `generateDeletePatch`: bounds check, target location,
context lines around the removed block. -/
def generateDeleteHunk (lines : List (List Char)) (line : Nat) (oldContent : List Char) :
    Except String GenHunk :=
  if lines.length < line then .error (invalidLineMsg line lines.length)
  else do
    let (rs, re) ← if oldContent = [] then pure (line, line)
      else locateOldContent lines line oldContent
    let patchStart := rs - 3
    let patchEnd := min lines.length (re + 3 + 1)
    pure
      { oldStart := (patchStart : Int) + 1
        oldLines := (patchEnd : Int) - (patchStart : Int)
        newStart := (patchStart : Int) + 1
        newLines := (patchEnd : Int) - (patchStart : Int) - ((re : Int) - (rs : Int) + 1)
        body :=
          (List.range' patchStart (rs - patchStart)).map (ctxLine lines)
            ++ (List.range' rs (re + 1 - rs)).map (remLine lines)
            ++ (List.range' (re + 1) (patchEnd - (re + 1))).map (ctxLine lines) }

/-- The `generateDeletePatch` (unused `context` parameter as in the source). -/
def generateDeletePatch (file : List Char) (lines : List (List Char)) (line : Nat)
    (oldContent : List Char) (_contextArg : Option (List Char)) : Except String (List Char) :=
  (generateDeleteHunk lines line oldContent).map (renderGenPatch file)

/-- The `generateAddPatch(file, content, fileExists)`: a diff against `/dev/null`
covering the whole new content. -/
def generateAddPatch (file content : List Char) (fileExists : Bool) : Except String (List Char) :=
  if fileExists then
    .error ("File " ++ String.mk file ++
      " already exists. Use replace operation to modify existing files.")
  else
    let lines := splitOnChar '\n' content
    .ok (joinLines ("--- /dev/null".toList :: ("+++ b/".toList ++ file) ::
      ("@@ -0,0 +1,".toList ++ (toString lines.length).toList ++ " @@".toList) ::
      lines.map addLine))

/-- The four `PatchInstruction` operations. -/
inductive Op where
  | add
  | replace
  | delete
  | insert
  deriving DecidableEq

/-- The `PatchInstruction`: one line-oriented edit request.  `line` is 0-based. -/
structure PatchInstruction where
  file : List Char
  operation : Op
  line : Option Nat := none
  content : Option (List Char) := none
  oldContent : Option (List Char) := none
  context : Option (List Char) := none
  deriving DecidableEq

/-- JavaScript falsiness of an optional string field: absent or empty. -/
def falsyOpt : Option (List Char) → Bool
  | none => true
  | some l => l.isEmpty

/-- The required-content message of `validatePatchInstruction` (the source
quotes the operation name; the quotes are immaterial and omitted). -/
def requiredContentMsg (op : String) : String :=
  "Content is required for " ++ op ++ " operation"

/-- The `validatePatchInstruction(instruction)`: the accumulated error list.  The
missing/invalid-operation and negative-line branches of the source are
unrepresentable over `Op` and `Option Nat` and therefore never fire here,
exactly as they never fire on a well-typed instruction. -/
def validatePatchInstruction (instr : PatchInstruction) : List String :=
  (if instr.file = [] then ["File path is required"] else []) ++
  (if instr.operation = .add ∧ falsyOpt instr.content then [requiredContentMsg "add"] else []) ++
  (if instr.operation = .replace ∧ falsyOpt instr.content then [requiredContentMsg "replace"] else []) ++
  (if instr.operation = .insert ∧ falsyOpt instr.content then [requiredContentMsg "insert"] else []) ++
  (if instr.operation = .delete ∧ falsyOpt instr.oldContent then
    ["oldContent is required for delete operation"] else [])

/-- The `PatchGenerationResult = { success, patch?, error?, applied }`. -/
structure PatchGenerationResult where
  success : Bool
  patch : Option (List Char) := none
  error : Option String := none
  applied : List (List Char) := []
  deriving DecidableEq

/-- The `generateSinglePatch(instruction)` over the file-system model: read the
file (missing file is an error unless adding), split into lines, dispatch on
the operation. -/
def generateSinglePatch (fs : FS) (instr : PatchInstruction) : Except String (List Char) :=
  let originalContent := (fs instr.file).getD []
  let fileExists := (fs instr.file).isSome
  if ¬fileExists ∧ instr.operation ≠ .add then
    .error ("File " ++ String.mk instr.file ++ " does not exist and operation is not add")
  else
    let lines := splitOnChar '\n' originalContent
    match instr.operation with
    | .add => generateAddPatch instr.file (instr.content.getD []) fileExists
    | .insert => generateInsertPatch instr.file lines (instr.line.getD 0) (instr.content.getD [])
    | .replace => generateReplacePatch instr.file lines (instr.line.getD 0)
        (instr.oldContent.getD []) (instr.content.getD []) instr.context
    | .delete => generateDeletePatch instr.file lines (instr.line.getD 0)
        (instr.oldContent.getD []) instr.context

/-- The validation pass of `generate_patch`: first instruction with a
non-empty error list, if any. -/
def firstInvalid : List PatchInstruction → Option (PatchInstruction × List String)
  | [] => none
  | i :: rest =>
    let errs := validatePatchInstruction i
    if errs = [] then firstInvalid rest else some (i, errs)

/-- The generation loop of `generate_patch` with its accumulators, followed by
the join/parse finalization.  `parseFn` is the external `parsePatch` used for
the final validation parse (`.error` models a throw). -/
def genLoop (parseFn : List Char → Except String (List α)) (fs : FS) :
    List PatchInstruction → List (List Char) → List (List Char) → PatchGenerationResult
  | [], patches, applied =>
    if patches = [] then
      { success := false, error := some "No patches were generated", applied := applied }
    else
      let unifiedPatch := joinLines patches
      match parseFn unifiedPatch with
      | .error e =>
        { success := false, error := some ("Generated patch is malformed: " ++ e),
          applied := applied }
      | .ok [] =>
        { success := false, error := some "Generated patch is invalid or empty",
          applied := applied }
      | .ok (_ :: _) =>
        { success := true, patch := some unifiedPatch, applied := applied }
  | instr :: rest, patches, applied =>
    match generateSinglePatch fs instr with
    | .error e =>
      { success := false,
        error := some ("Failed to generate patch for " ++ String.mk instr.file ++
          ": Error: " ++ e),
        applied := applied }
    | .ok patch =>
      if patch = [] then genLoop parseFn fs rest patches applied
      else genLoop parseFn fs rest (patches ++ [patch]) (applied ++ [instr.file])

/-- The `generate_patch(instructions)`: validate everything first, then generate
per instruction (any failure aborts the whole batch), then validate the joined
patch by parsing it. -/
def generate_patch (parseFn : List Char → Except String (List α)) (fs : FS)
    (instructions : List PatchInstruction) : PatchGenerationResult :=
  match firstInvalid instructions with
  | some (instr, errs) =>
    { success := false,
      error := some ("Invalid instruction for " ++ String.mk instr.file ++ ": " ++
        String.intercalate ", " errs),
      applied := [] }
  | none => genLoop parseFn fs instructions [] []

/-! ## PatchParser and PatchApplier (`file-handlers.ts`)

`Hunk` and `ParsedPatch` are the canonical in-memory diff representation;
the tolerant manual parser produces them, and `write_patch` consumes them.
The strict parser (`parsePatch` of the `diff` library) and the primary applier
(`applyPatch`) are external and passed as parameters; `.error`/`none` model a
throw/`false` return. -/

/-- The `Hunk = { oldStart, oldLines, newStart, newLines, lines }`; body lines
keep their `+`/`-`/space prefix. -/
structure Hunk where
  oldStart : Nat
  oldLines : Nat
  newStart : Nat
  newLines : Nat
  lines : List (List Char)
  deriving DecidableEq

/-- The `ParsedPatch = { oldFileName, newFileName, hunks }` (absent file names are
the empty string, which is falsy exactly like `undefined` in the source). -/
structure ParsedPatch where
  oldFileName : List Char := []
  newFileName : List Char := []
  hunks : List Hunk := []
  deriving DecidableEq

/-- Match of the tolerant hunk-header regex
`@@ -(\d+),?(\d*) \+(\d+),?(\d*) @@` starting at the head of `cs`.  The
regex is deterministic on this pattern: greedy digit runs, an optional comma,
`parseInt("") || 0` turning an absent count into 0. -/
def parseHunkHeaderAt (cs : List Char) : Option (Nat × Nat × Nat × Nat) :=
  if "@@ -".toList.isPrefixOf cs then
    let rest := cs.drop 4
    let d1 := rest.takeWhile (fun c => c.isDigit)
    if d1 = [] then none
    else
      let rest1 := rest.dropWhile (fun c => c.isDigit)
      let rest2 := if rest1.head? = some ',' then rest1.drop 1 else rest1
      let d2 := rest2.takeWhile (fun c => c.isDigit)
      match rest2.dropWhile (fun c => c.isDigit) with
      | ' ' :: '+' :: rest4 =>
        let d3 := rest4.takeWhile (fun c => c.isDigit)
        if d3 = [] then none
        else
          let rest5 := rest4.dropWhile (fun c => c.isDigit)
          let rest6 := if rest5.head? = some ',' then rest5.drop 1 else rest5
          let rest7 := rest6.dropWhile (fun c => c.isDigit)
          let d4 := rest6.takeWhile (fun c => c.isDigit)
          if " @@".toList.isPrefixOf rest7 then
            some (parseDigits d1, parseDigits d2, parseDigits d3, parseDigits d4)
          else none
      | _ => none
  else none

/-- The unanchored `line.match(...)` search: first position at which the hunk
header pattern matches. -/
def searchHunkHeader : List Char → Option (Nat × Nat × Nat × Nat)
  | [] => none
  | c :: rest =>
    match parseHunkHeaderAt (c :: rest) with
    | some r => some r
    | none => searchHunkHeader rest

/-- Replace the last element of a list (mutation of the object the source
holds a reference to). -/
def updateLast (f : α → α) : List α → List α
  | [] => []
  | [x] => [f x]
  | x :: xs => x :: updateLast f xs

/-- Replace the element at index `k`. -/
def modifyAt (f : α → α) : Nat → List α → List α
  | _, [] => []
  | 0, x :: xs => f x :: xs
  | n + 1, x :: xs => x :: modifyAt f n xs

/-- Append a body line to the last hunk of a patch. -/
def appendToLastHunk (line : List Char) (p : ParsedPatch) : ParsedPatch :=
  { p with hunks := updateLast (fun h => { h with lines := h.lines ++ [line] }) p.hunks }

/-- One line of the tolerant manual diff parser.  The state is the list of
patches created so far (the last one is `currentPatch` of the source) together
with the index of the patch whose last hunk is `currentHunk` of the source
(the `currentHunk` reference survives a `--- a/` line, so body lines arriving
before the next `@@` still land in the last hunk of the previous patch, exactly as
the mutable references behave in the source). -/
def manualStep (st : List ParsedPatch × Option Nat) (line : List Char) :
    List ParsedPatch × Option Nat :=
  let ps := st.1
  let hunkAt := st.2
  if "--- a/".toList.isPrefixOf line then
    (ps ++ [{ oldFileName := line.drop 6 }], hunkAt)
  else if "+++ b/".toList.isPrefixOf line then
    (if ps = [] then ps else updateLast (fun p => { p with newFileName := line.drop 6 }) ps,
      hunkAt)
  else if "@@".toList.isPrefixOf line then
    match searchHunkHeader line with
    | some (a, b, c, d) =>
      if ps = [] then (ps, hunkAt)
      else
        (updateLast (fun p => { p with hunks := p.hunks ++ [⟨a, b, c, d, []⟩] }) ps,
          some (ps.length - 1))
    | none => (ps, hunkAt)
  else
    match hunkAt with
    | some k =>
      if line.head? = some '+' ∨ line.head? = some '-' ∨ line.head? = some ' ' then
        (modifyAt (appendToLastHunk line) k ps, hunkAt)
      else (ps, hunkAt)
    | none => (ps, hunkAt)

/-- The tolerant fallback parser of `parseDiffPatch`: line-by-line scan over
the four recognized prefixes. -/
def manualParseDiff (cs : List Char) : List ParsedPatch :=
  ((splitOnChar '\n' cs).foldl manualStep ([], none)).1

/-- The `parseDiffPatch(patchContent)`: the strict library parser first, the
manual parser when it throws. -/
def parseDiffPatch (strict : List Char → Except String (List ParsedPatch)) (cs : List Char) :
    List ParsedPatch :=
  match strict cs with
  | .ok l => l
  | .error _ => manualParseDiff cs

/-- The `+`-prefixed lines of a hunk, prefix stripped
(`hunk.lines.filter(l => l.startsWith("+")).map(l => l.substring(1))`). -/
def hunkPlusLines (h : Hunk) : List (List Char) :=
  (h.lines.filter (fun l => l.head? = some '+')).map (List.drop 1)

/-- One hunk of `applyPatchManually`: skip when `oldStart - 1` is out of
bounds, otherwise remove `oldLines` lines there (clamped by
`Math.min(oldStart + oldLines, result.length)`) and splice in the stripped
`+` lines at the same position.  (The guard `if (newContent.length > 0)` of the source
guard is the identity when the insertion is empty.) -/
def manualApplyHunk (result : List (List Char)) (h : Hunk) : List (List Char) :=
  if h.oldStart < 1 ∨ result.length ≤ h.oldStart - 1 then result
  else
    let pos := h.oldStart - 1
    let afterRemove :=
      if 0 < h.oldLines then
        result.take pos ++ result.drop (min (pos + h.oldLines) result.length)
      else result
    afterRemove.take pos ++ hunkPlusLines h ++ afterRemove.drop pos

/-- The `applyPatchManually(originalContent, parsedPatch)`: split into lines,
splice each hunk in the order listed, join.  (The `try/catch` of the source
wrapper returning `null` never fires: every step here is total.) -/
def applyPatchManually (originalContent : List Char) (p : ParsedPatch) : List Char :=
  joinLines (p.hunks.foldl manualApplyHunk (splitOnChar '\n' originalContent))

/-- The escape-sequence normalization at the top of `write_patch`:
`\n`, `\t`, `\"`, `\\` (in that order, each a global replace). -/
def unescape (cs : List Char) : List Char :=
  jsReplaceAll "\\\\".toList "\\".toList
    (jsReplaceAll "\\\"".toList "\"".toList
      (jsReplaceAll "\\t".toList "\t".toList
        (jsReplaceAll "\\n".toList "\n".toList cs)))

/-- The `mode` of a `PatchApplicationResult`. -/
inductive Mode where
  | diff
  | fullFile
  | none
  deriving DecidableEq

/-- The `PatchApplicationResult = { applied, mode, error? }`. -/
structure PatchResult where
  applied : List (List Char)
  mode : Mode
  error : Option String := Option.none
  deriving DecidableEq

/-- Strip a leading `a/` or `b/` from a patch file name
(`file.replace(/^[ab]\//, "")`). -/
def stripAB (file : List Char) : List Char :=
  if "a/".toList.isPrefixOf file ∨ "b/".toList.isPrefixOf file then file.drop 2 else file

/-- The file targeted by a parsed patch:
`parsedPatch.newFileName || parsedPatch.oldFileName || ""` with the prefix
stripped. -/
def fileNameOf (p : ParsedPatch) : List Char :=
  stripAB (if p.newFileName ≠ [] then p.newFileName else p.oldFileName)

/-- One parsed patch of the diff-mode loop of `write_patch`: skip when there
is no file name; read the current content (missing file reads as empty); try
the primary applier, fall back to `applyPatchManually`; write and record the
file. -/
def diffApplyStep (applyFn : List Char → ParsedPatch → Option (List Char))
    (st : FS × List (List Char)) (p : ParsedPatch) : FS × List (List Char) :=
  let file := fileNameOf p
  if file = [] then st
  else
    let originalContent := (st.1 file).getD []
    let result :=
      match applyFn originalContent p with
      | some r => r
      | Option.none => applyPatchManually originalContent p
    (fsWrite st.1 file result, st.2 ++ [file])

/-- The diff-mode loop over all parsed patches. -/
def applyDiffPatches (applyFn : List Char → ParsedPatch → Option (List Char))
    (fs : FS) (ps : List ParsedPatch) : FS × List (List Char) :=
  ps.foldl (diffApplyStep applyFn) (fs, [])

/-- The `=== file:` delimiter. -/
def fileMarker : List Char := "=== file:".toList

/-- The `=== end ===` marker. -/
def endMarker : List Char := "=== end ===".toList

/-- The split on `/(?:^|\n)=== file:/`: a match is the marker at the very
start, or a newline followed by the marker (the newline is part of the
separator).  Structural on fuel so the kernel can evaluate it. -/
def splitFBAux : Nat → List Char → Bool → List Char → List (List Char)
  | 0, _, _, acc => [acc]
  | fuel + 1, rem, atStart, acc =>
    if atStart ∧ fileMarker.isPrefixOf rem then
      acc :: splitFBAux fuel (rem.drop 9) false []
    else
      match rem with
      | [] => [acc]
      | c :: rest =>
        if c = '\n' ∧ fileMarker.isPrefixOf rest then
          acc :: splitFBAux fuel (rest.drop 9) false []
        else splitFBAux fuel rest false (acc ++ [c])

/-- The `unescapedPatch.split(/(?:^|\n)=== file:/)`. -/
def splitFileBlocks (cs : List Char) : List (List Char) :=
  splitFBAux (cs.length + 1) cs true []

/-- The single `filePathLine.replace(/\s*===\s*$/, "")`: when the line (after
trailing whitespace) ends in `===`, remove that marker together with the
whitespace around it. -/
def stripTrailingMarker (cs : List Char) : List Char :=
  let a := dropTrailingWs cs
  if "===".toList.isSuffixOf a then dropTrailingWs (a.take (a.length - 3)) else cs

/-- One full-file block: the path from the header line (trailing `===`
stripped, then trimmed) and the body, which runs from the end of the header
line up to the first `=== end ===` marker (with the single leading newline of
the header removed), or to the end of the block when there is no marker. -/
def processBlock (block : List Char) : List Char × List Char :=
  let lines := splitOnChar '\n' block
  let filePathLine := lines.headD []
  let file := jsTrim (stripTrailingMarker filePathLine)
  let body :=
    match indexOfFrom block endMarker 0 with
    | Option.none => joinLines (lines.drop 1)
    | some endIdx =>
      let contentBeforeEnd := substringJS block filePathLine.length endIdx
      if contentBeforeEnd.head? = some '\n' then contentBeforeEnd.drop 1 else contentBeforeEnd
  (file, body)

/-- The full-file loop of `write_patch` over the blocks after the first: each
block writes its file and records it. -/
def writeFullFileBlocks : FS × List (List Char) → List (List Char) → FS × List (List Char)
  | st, [] => st
  | st, b :: rest =>
    writeFullFileBlocks
      (fsWrite st.1 (processBlock b).1 (processBlock b).2, st.2 ++ [(processBlock b).1]) rest

/-- The `write_patch(patch)` over the file-system model: unescape, try the diff
path (strict parse with tolerant fallback, primary apply with manual
fallback), return `mode: "diff"` when at least one file was written; otherwise
split into full-file blocks and write each; otherwise
`{ applied: [], mode: "none", error }`. -/
def write_patch (strict : List Char → Except String (List ParsedPatch))
    (applyFn : List Char → ParsedPatch → Option (List Char))
    (fs : FS) (patch : List Char) : FS × PatchResult :=
  let unescapedPatch := unescape patch
  let parsedPatches := parseDiffPatch strict unescapedPatch
  let applyOut := applyDiffPatches applyFn fs parsedPatches
  if applyOut.2 ≠ [] then (applyOut.1, ⟨applyOut.2, Mode.diff, Option.none⟩)
  else
    let blocks := splitFileBlocks unescapedPatch
    if 1 < blocks.length then
      let out := writeFullFileBlocks (applyOut.1, applyOut.2) (blocks.drop 1)
      (out.1, ⟨out.2, Mode.fullFile, Option.none⟩)
    else (applyOut.1, ⟨[], Mode.none, some "No recognized patch blocks"⟩)

/-! ## Concrete fixtures used by the witnesses -/

/-- A trivial instantiation of the diff library: the generated patch text is
`"D"`, parsing yields one (unit) patch, applying returns the old text
unchanged.  Its self-verification succeeds exactly when old and new text
coincide. -/
def witLib : DiffLib Unit :=
  { createTwoFilesPatch := fun _ _ _ _ _ _ _ => "D".toList
    parsePatch := fun _ => [()]
    applyPatch := fun old _ => some old }

/-- A file system holding one three-line file `f.txt`. -/
def witFs3 : FS := fun p => if p = "f.txt".toList then some "a\nb\nc".toList else Option.none

/-- The instruction of testable property 6: insert at line 10 of `f.txt`. -/
def witInsert10 : PatchInstruction :=
  { file := "f.txt".toList, operation := .insert, line := some 10, content := some "x".toList }

/-- A strict parser that always throws. -/
def witStrictFail : List Char → Except String (List ParsedPatch) := fun _ => .error "parse failure"

/-- A primary applier that always returns `false`. -/
def witApplyNone : List Char → ParsedPatch → Option (List Char) := fun _ _ => Option.none

/-- The empty file system. -/
def witFsEmpty : FS := fun _ => Option.none

/-! ## General helper lemmas -/

instance {ε α : Type} [DecidableEq ε] [DecidableEq α] : DecidableEq (Except ε α) := by
  intro a b
  cases a <;> cases b
  case error.error e1 e2 =>
    exact if h : e1 = e2 then .isTrue (by rw [h]) else .isFalse (by simp [h])
  case error.ok e1 a2 => exact .isFalse (by simp)
  case ok.error a1 e2 => exact .isFalse (by simp)
  case ok.ok a1 a2 =>
    exact if h : a1 = a2 then .isTrue (by rw [h]) else .isFalse (by simp [h])

theorem splitOnChar_ne_nil (c : Char) (l : List Char) : splitOnChar c l ≠ [] := by
  induction l with
  | nil => simp [splitOnChar]
  | cons x xs ih =>
    simp only [splitOnChar]
    split
    · simp
    · cases h : splitOnChar c xs <;> simp

/-! ## C1 -/

theorem generateUnifiedDiffForFile_ok_roundtrip (α : Type) (lib : DiffLib α)
    (filePath oldText editedText d : List Char)
    (h : generateUnifiedDiffForFile lib filePath oldText editedText = .ok d) :
    ∃ p, (lib.parsePatch d).head? = some p ∧ lib.applyPatch oldText p = some editedText := by
  cases hh : (lib.parsePatch (lib.createTwoFilesPatch ('a' :: '/' :: filePath)
      ('b' :: '/' :: filePath) oldText editedText "old".toList "new".toList 3)).head? with
  | none =>
    simp only [generateUnifiedDiffForFile, hh] at h
    exact absurd h (by simp)
  | some p =>
    simp only [generateUnifiedDiffForFile, hh] at h
    cases ha : lib.applyPatch oldText p with
    | none =>
      simp only [ha] at h
      exact absurd h (by simp)
    | some roundTrip =>
      simp only [ha] at h
      by_cases he : roundTrip = editedText
      · rw [if_pos he] at h
        injection h with h'
        rw [← h']
        refine ⟨p, hh, ?_⟩
        rw [ha, he]
      · rw [if_neg he] at h; exact absurd h (by simp)

/-- C1: whenever `generateUnifiedDiffForFile` returns a diff, parsing that
diff and applying it to `oldText` reproduces `editedText` byte for byte; when
the self-apply check does not reproduce the edited text the function fails
with the diff-verification error and returns no diff; consequently, whenever
`applyEditsToText` succeeds and the diff synthesized from its result is
returned, that diff parses and applies back to exactly that result.  Holds for
every implementation of the external diff library. -/
theorem generateUnifiedDiff_self_verification :
    (∀ (α : Type) (lib : DiffLib α) (filePath oldText editedText d : List Char),
      generateUnifiedDiffForFile lib filePath oldText editedText = .ok d →
      ∃ p, (lib.parsePatch d).head? = some p ∧ lib.applyPatch oldText p = some editedText) ∧
    (∀ (α : Type) (lib : DiffLib α) (filePath oldText editedText : List Char),
      (∀ p, (lib.parsePatch (lib.createTwoFilesPatch ('a' :: '/' :: filePath)
          ('b' :: '/' :: filePath) oldText editedText "old".toList "new".toList 3)).head? = some p →
        lib.applyPatch oldText p ≠ some editedText) →
      generateUnifiedDiffForFile lib filePath oldText editedText =
        .error diffVerificationFailedMsg) ∧
    (∀ (α : Type) (lib : DiffLib α) (filePath oldText newText d : List Char) (edits : List Edit),
      applyEditsToText oldText edits = .ok newText →
      generateUnifiedDiffForFile lib filePath oldText newText = .ok d →
      ∃ p, (lib.parsePatch d).head? = some p ∧ lib.applyPatch oldText p = some newText) := by
  refine ⟨?ok, ?bad, ?plan⟩
  case ok =>
    exact generateUnifiedDiffForFile_ok_roundtrip
  case bad =>
    intro α lib filePath oldText editedText hfail
    cases hh : (lib.parsePatch (lib.createTwoFilesPatch ('a' :: '/' :: filePath)
        ('b' :: '/' :: filePath) oldText editedText "old".toList "new".toList 3)).head? with
    | none => simp only [generateUnifiedDiffForFile, hh]
    | some p =>
      cases ha : lib.applyPatch oldText p with
      | none => simp only [generateUnifiedDiffForFile, hh, ha]
      | some roundTrip =>
        have hne : roundTrip ≠ editedText := by
          intro he
          exact hfail p hh (he ▸ ha)
        simp only [generateUnifiedDiffForFile, hh, ha, if_neg hne]
  case plan =>
    intro α lib filePath oldText newText d edits _ h
    exact generateUnifiedDiffForFile_ok_roundtrip α lib filePath oldText newText d h

/-- Witness for C1 at the trivial library and `oldText = editedText = "x"`. -/
theorem generateUnifiedDiff_self_verification_witness :
    (generateUnifiedDiffForFile witLib "f".toList "x".toList "x".toList = .ok "D".toList ∧
      applyEditsToText "x".toList [] = .ok "x".toList) ∧
    (∃ p, (witLib.parsePatch "D".toList).head? = some p ∧
      witLib.applyPatch "x".toList p = some "x".toList) := by
  refine ⟨⟨by decide, by decide⟩, ?_⟩
  exact generateUnifiedDiff_self_verification.1 Unit witLib "f".toList "x".toList "x".toList
    "D".toList (by decide)

/-! ## C7 -/

theorem processChange_fst (α : Type) (lib : DiffLib α)
    (readFn : List Char → Except String (List Char)) (fc : FileChangePlan)
    (r : List Char × List Char) (h : processChange lib readFn fc = .ok r) :
    r.1 = fc.filePath := by
  cases h1 : readFn fc.filePath with
  | error e =>
    simp only [processChange, h1, bind, Except.bind] at h
    exact absurd h (by simp)
  | ok oldText =>
    simp only [processChange, h1, bind, Except.bind] at h
    cases h2 : applyEditsToText oldText fc.edits with
    | error e =>
      simp only [h2] at h
      exact absurd h (by simp)
    | ok newText =>
      simp only [h2] at h
      cases h3 : generateUnifiedDiffForFile lib fc.filePath oldText newText with
      | error e =>
        simp only [h3] at h
        exact absurd h (by simp)
      | ok diff =>
        simp only [h3, pure, Except.pure] at h
        injection h with h'
        rw [← h']

theorem mapChanges_ok_spec (α : Type) (lib : DiffLib α)
    (readFn : List Char → Except String (List Char)) :
    ∀ (l : List FileChangePlan) (res : List (List Char × List Char)),
      mapChanges lib readFn l = .ok res →
      res.length = l.length ∧
      ∀ i, i < l.length → ∃ fc r, l[i]? = some fc ∧ res[i]? = some r ∧
        processChange lib readFn fc = .ok r := by
  intro l
  induction l with
  | nil =>
    intro res h
    simp only [mapChanges] at h
    injection h with h'
    subst h'
    exact ⟨rfl, by intro i hi; simp at hi⟩
  | cons fc rest ih =>
    intro res h
    simp only [mapChanges, bind, Except.bind] at h
    cases h1 : processChange lib readFn fc with
    | error e =>
      simp only [h1] at h
      exact absurd h (by simp)
    | ok r =>
      simp only [h1] at h
      cases h2 : mapChanges lib readFn rest with
      | error e =>
        simp only [h2] at h
        exact absurd h (by simp)
      | ok rs =>
        simp only [h2, pure, Except.pure] at h
        injection h with h'
        subst h'
        obtain ⟨hlen, hidx⟩ := ih rs h2
        refine ⟨by simp [hlen], ?_⟩
        intro i hi
        cases i with
        | zero => exact ⟨fc, r, by simp, by simp, h1⟩
        | succ i' =>
          obtain ⟨fc', r', hfc, hr, hpc⟩ := hidx i' (by simpa using hi)
          exact ⟨fc', r', by simpa using hfc, by simpa using hr, hpc⟩

theorem mapChanges_error_of_mem (α : Type) (lib : DiffLib α)
    (readFn : List Char → Except String (List Char)) :
    ∀ (l : List FileChangePlan) (fc : FileChangePlan) (e : String),
      fc ∈ l → processChange lib readFn fc = .error e →
      ∃ e2, mapChanges lib readFn l = .error e2 := by
  intro l
  induction l with
  | nil => intro fc e hmem; exact absurd hmem (by simp)
  | cons hd rest ih =>
    intro fc e hmem hpc
    rcases List.mem_cons.mp hmem with heq | hmem'
    · subst heq
      exact ⟨e, by simp only [mapChanges, bind, Except.bind, hpc]⟩
    · cases h1 : processChange lib readFn hd with
      | error e' => exact ⟨e', by simp only [mapChanges, bind, Except.bind, h1]⟩
      | ok r =>
        obtain ⟨e2, h2⟩ := ih fc e hmem' hpc
        exact ⟨e2, by simp only [mapChanges, bind, Except.bind, h1, h2]⟩

/-- C7: `planToUnifiedDiffs` is all-or-nothing and order-preserving: a
successful run returns exactly one `(filePath, diff)` pair per entry of
`plan.changes`, at the same position and produced from that entry, with the
path of each pair equal to the path of its entry; and if the per-file pipeline
(read, resolve, synthesize-verify) fails for any listed file, the whole call
fails with an error and no list is returned. -/
theorem planToUnifiedDiffs_all_or_nothing :
    (∀ (α : Type) (lib : DiffLib α) (readFn : List Char → Except String (List Char))
      (plan : Plan) (res : List (List Char × List Char)),
      planToUnifiedDiffs lib readFn plan = .ok res →
      res.length = plan.changes.length ∧
      ∀ i, i < plan.changes.length →
        ∃ fc r, plan.changes[i]? = some fc ∧ res[i]? = some r ∧
          processChange lib readFn fc = .ok r ∧ r.1 = fc.filePath) ∧
    (∀ (α : Type) (lib : DiffLib α) (readFn : List Char → Except String (List Char))
      (plan : Plan) (fc : FileChangePlan) (e : String),
      fc ∈ plan.changes → processChange lib readFn fc = .error e →
      ∃ e2, planToUnifiedDiffs lib readFn plan = .error e2) := by
  constructor
  · intro α lib readFn plan res h
    obtain ⟨hlen, hidx⟩ := mapChanges_ok_spec α lib readFn plan.changes res h
    refine ⟨hlen, ?_⟩
    intro i hi
    obtain ⟨fc, r, hfc, hr, hpc⟩ := hidx i hi
    exact ⟨fc, r, hfc, hr, hpc, processChange_fst α lib readFn fc r hpc⟩
  · intro α lib readFn plan fc e hmem hpc
    exact mapChanges_error_of_mem α lib readFn plan.changes fc e hmem hpc

/-- A reader used by the C7 witness. -/
def witReadX : List Char → Except String (List Char) := fun _ => .ok "x".toList

/-- A one-file plan with no edits, used by the C7 witness. -/
def witPlan1 : Plan := ⟨[⟨"f".toList, []⟩]⟩

/-- Witness for C7 at a concrete one-change plan that succeeds. -/
theorem planToUnifiedDiffs_all_or_nothing_witness :
    planToUnifiedDiffs witLib witReadX witPlan1 = .ok [("f".toList, "D".toList)] ∧
    ([("f".toList, "D".toList)] : List (List Char × List Char)).length =
      witPlan1.changes.length ∧
    ∀ i, i < witPlan1.changes.length →
      ∃ fc r, witPlan1.changes[i]? = some fc ∧
        ([("f".toList, "D".toList)] : List (List Char × List Char))[i]? = some r ∧
        processChange witLib witReadX fc = .ok r ∧ r.1 = fc.filePath := by
  refine ⟨by decide, ?_⟩
  exact planToUnifiedDiffs_all_or_nothing.1 Unit witLib witReadX witPlan1
    [("f".toList, "D".toList)] (by decide)

/-! ## C2 -/

theorem anyOverlap_true_of (l : List ConcreteEdit) :
    ∀ (i j : Nat) (a b : ConcreteEdit), i < j → l[i]? = some a → l[j]? = some b →
      editsOverlap a b = true → anyOverlap l = true := by
  induction l with
  | nil => intro i j a b _ ha; simp at ha
  | cons c rest ih =>
    intro i j a b hij ha hb hov
    cases i with
    | zero =>
      have hac : a = c := by
        have := List.getElem?_cons_zero (a := c) (l := rest)
        rw [this] at ha
        injection ha with h'
        exact h'.symm
      cases j with
      | zero => omega
      | succ j' =>
        rw [List.getElem?_cons_succ] at hb
        have hmem : b ∈ rest := by
          obtain ⟨hj, hbe⟩ := List.getElem?_eq_some_iff.mp hb
          exact hbe ▸ List.getElem_mem hj
        have hover : overlapsAny c rest = true := by
          rw [overlapsAny, List.any_eq_true]
          exact ⟨b, hmem, by rw [← hac]; exact hov⟩
        simp [anyOverlap, hover]
    | succ i' =>
      cases j with
      | zero => omega
      | succ j' =>
        rw [List.getElem?_cons_succ] at ha hb
        have := ih i' j' a b (by omega) ha hb hov
        simp [anyOverlap, this]

/-- C2: whenever the resolved concrete edits of an edit list contain two
entries whose ranges overlap (`max(a.start, b.start) < min(a.end, b.end)`),
`applyEditsToText` fails with the overlapping-edits error and produces no
result text. -/
theorem applyEditsToText_overlap_rejected :
    ∀ (original : List Char) (edits : List Edit) (concrete : List ConcreteEdit)
      (i j : Nat) (a b : ConcreteEdit),
      resolveEdits original edits = .ok concrete →
      i < j → concrete[i]? = some a → concrete[j]? = some b →
      editsOverlap a b = true →
      applyEditsToText original edits = .error overlappingEditsMsg := by
  intro original edits concrete i j a b hres hij ha hb hov
  have hany := anyOverlap_true_of concrete i j a b hij ha hb hov
  simp only [applyEditsToText, bind, Except.bind, hres, hany, if_true, throw, throwThe,
    MonadExceptOf.throw]

/-- Witness for C2: `ReplaceRange{1,4,"X"}` and `ReplaceRange{3,5,"Y"}` on
`"hello"` resolve to overlapping ranges and are rejected. -/
theorem applyEditsToText_overlap_rejected_witness :
    (resolveEdits "hello".toList
        [.replaceRange 1 4 "X".toList, .replaceRange 3 5 "Y".toList] =
      .ok [⟨1, 4, "X".toList⟩, ⟨3, 5, "Y".toList⟩] ∧
      editsOverlap ⟨1, 4, "X".toList⟩ ⟨3, 5, "Y".toList⟩ = true) ∧
    applyEditsToText "hello".toList
        [.replaceRange 1 4 "X".toList, .replaceRange 3 5 "Y".toList] =
      .error overlappingEditsMsg := by
  refine ⟨⟨by decide, by decide⟩, ?_⟩
  exact applyEditsToText_overlap_rejected "hello".toList
    [.replaceRange 1 4 "X".toList, .replaceRange 3 5 "Y".toList]
    [⟨1, 4, "X".toList⟩, ⟨3, 5, "Y".toList⟩] 0 1
    ⟨1, 4, "X".toList⟩ ⟨3, 5, "Y".toList⟩ (by decide) (by decide) (by decide) (by decide)
    (by decide)

/-! ## C4 -/

/-- C4: the manual fallback processes hunks in listed order (a left fold, top
to bottom); a hunk whose 0-based position `oldStart - 1` is in bounds removes
`oldLines` lines at that position (clamped to the end of the file) and inserts
exactly the `+`-prefixed lines of the hunk, prefixes stripped, at that position;
an out-of-bounds hunk leaves the lines unchanged, so the remaining hunks are
still applied; and when the primary applier fails on a patch with a file name,
the diff loop writes the manual result for that file. -/
theorem applyPatchManually_spec :
    (∀ (lines : List (List Char)) (h : Hunk) (hs : List Hunk),
      (h :: hs).foldl manualApplyHunk lines = hs.foldl manualApplyHunk (manualApplyHunk lines h)) ∧
    (∀ (lines : List (List Char)) (h : Hunk), 1 ≤ h.oldStart → h.oldStart - 1 < lines.length →
      manualApplyHunk lines h =
        lines.take (h.oldStart - 1) ++ hunkPlusLines h ++
          lines.drop (min (h.oldStart - 1 + h.oldLines) lines.length)) ∧
    (∀ (lines : List (List Char)) (h : Hunk),
      h.oldStart = 0 ∨ lines.length ≤ h.oldStart - 1 → manualApplyHunk lines h = lines) ∧
    (∀ (originalContent : List Char) (p : ParsedPatch),
      applyPatchManually originalContent p =
        joinLines (p.hunks.foldl manualApplyHunk (splitOnChar '\n' originalContent))) ∧
    (∀ (applyFn : List Char → ParsedPatch → Option (List Char))
      (st : FS × List (List Char)) (p : ParsedPatch),
      fileNameOf p ≠ [] →
      applyFn ((st.1 (fileNameOf p)).getD []) p = Option.none →
      diffApplyStep applyFn st p =
        (fsWrite st.1 (fileNameOf p)
            (applyPatchManually ((st.1 (fileNameOf p)).getD []) p),
          st.2 ++ [fileNameOf p])) := by
  refine ⟨fun lines h hs => rfl, ?inb, ?oob, fun o p => rfl, ?step⟩
  case inb =>
    intro lines h h1 h2
    have hcond : ¬(h.oldStart < 1 ∨ lines.length ≤ h.oldStart - 1) := by omega
    simp only [manualApplyHunk, if_neg hcond]
    by_cases hz : 0 < h.oldLines
    · rw [if_pos hz]
      have hlen : (lines.take (h.oldStart - 1)).length = h.oldStart - 1 := by
        rw [List.length_take]
        omega
      rw [List.take_left' hlen, List.drop_left' hlen]
    · rw [if_neg hz]
      have hl0 : h.oldLines = 0 := by omega
      rw [hl0]
      have : min (h.oldStart - 1 + 0) lines.length = h.oldStart - 1 := by omega
      rw [this]
  case oob =>
    intro lines h hcond
    have : h.oldStart < 1 ∨ lines.length ≤ h.oldStart - 1 := by omega
    rw [manualApplyHunk, if_pos this]
  case step =>
    intro applyFn st p hfile happ
    rw [diffApplyStep]
    simp only [if_neg hfile, happ]

/-- Witness for C4 at a concrete in-bounds hunk on a three-line file. -/
theorem applyPatchManually_spec_witness :
    (1 ≤ 2 ∧ 2 - 1 < (["a".toList, "b".toList, "c".toList] : List (List Char)).length) ∧
    manualApplyHunk ["a".toList, "b".toList, "c".toList]
        ⟨2, 1, 2, 1, ["-b".toList, "+B".toList]⟩ =
      (["a".toList, "b".toList, "c".toList] : List (List Char)).take (2 - 1) ++
        hunkPlusLines ⟨2, 1, 2, 1, ["-b".toList, "+B".toList]⟩ ++
        (["a".toList, "b".toList, "c".toList] : List (List Char)).drop
          (min (2 - 1 + 1) (["a".toList, "b".toList, "c".toList] : List (List Char)).length) := by
  refine ⟨⟨by decide, by decide⟩, ?_⟩
  exact applyPatchManually_spec.2.1 ["a".toList, "b".toList, "c".toList]
    ⟨2, 1, 2, 1, ["-b".toList, "+B".toList]⟩ (by decide) (by decide)

/-! ## C9 -/

/-- C9: the insert generator accepts line numbers exactly in
`0 ≤ line ≤ lineCount` and fails with the invalid-line-number error otherwise;
in particular `generate_patch` with a single insert at line 10 against the
three-line file fails as a whole, with an "Invalid line number" error and no
patch. -/
theorem generateInsertPatch_line_bounds :
    (∀ (file content : List Char) (lines : List (List Char)) (insertLine : Nat),
      insertLine ≤ lines.length →
      ∃ p, generateInsertPatch file lines insertLine content = .ok p) ∧
    (∀ (file content : List Char) (lines : List (List Char)) (insertLine : Nat),
      lines.length < insertLine →
      generateInsertPatch file lines insertLine content =
        .error (invalidLineMsg insertLine lines.length)) ∧
    (∀ (α : Type) (parseFn : List Char → Except String (List α)),
      generate_patch parseFn witFs3 [witInsert10] =
        { success := false,
          patch := Option.none,
          error := some ("Failed to generate patch for f.txt: Error: " ++ invalidLineMsg 10 3),
          applied := [] }) := by
  refine ⟨?inb, ?oob, ?concrete⟩
  case inb =>
    intro file content lines insertLine hle
    have : ¬lines.length < insertLine := by omega
    simp only [generateInsertPatch, generateInsertHunk, if_neg this, Except.map]
    exact ⟨_, rfl⟩
  case oob =>
    intro file content lines insertLine hlt
    simp only [generateInsertPatch, generateInsertHunk, if_pos hlt, Except.map]
  case concrete =>
    intro α parseFn
    have h1 : firstInvalid [witInsert10] = Option.none := by decide
    have h2 : generateSinglePatch witFs3 witInsert10 = .error (invalidLineMsg 10 3) := by decide
    simp only [generate_patch, h1, genLoop, h2]
    rfl

/-- Witness for C9: a successful insert at line 1 of a two-line file, the
failing insert at line 3 of the same file, and the concrete
`generate_patch` example. -/
theorem generateInsertPatch_line_bounds_witness :
    ((1 : Nat) ≤ (["a".toList, "b".toList] : List (List Char)).length ∧
      ∃ p, generateInsertPatch "g".toList ["a".toList, "b".toList] 1 "x".toList = .ok p) ∧
    ((["a".toList, "b".toList] : List (List Char)).length < 3 ∧
      generateInsertPatch "g".toList ["a".toList, "b".toList] 3 "x".toList =
        .error (invalidLineMsg 3 2)) ∧
    generate_patch (fun _ => .ok ([] : List Unit)) witFs3 [witInsert10] =
      { success := false,
        patch := Option.none,
        error := some ("Failed to generate patch for f.txt: Error: " ++ invalidLineMsg 10 3),
        applied := [] } := by
  refine ⟨⟨by decide, ?_⟩, ⟨by decide, ?_⟩, ?_⟩
  · exact generateInsertPatch_line_bounds.1 "g".toList "x".toList
      ["a".toList, "b".toList] 1 (by decide)
  · exact generateInsertPatch_line_bounds.2.1 "g".toList "x".toList
      ["a".toList, "b".toList] 3 (by decide)
  · exact generateInsertPatch_line_bounds.2.2 Unit (fun _ => .ok ([] : List Unit))

/-! ## C10 -/

theorem mem_validate_add (instr : PatchInstruction) (hop : instr.operation = .add)
    (hc : falsyOpt instr.content = true) :
    requiredContentMsg "add" ∈ validatePatchInstruction instr := by
  rw [validatePatchInstruction]
  have hB : requiredContentMsg "add" ∈
      (if instr.operation = .add ∧ falsyOpt instr.content then [requiredContentMsg "add"]
        else []) := by
    rw [if_pos ⟨hop, hc⟩]
    exact List.mem_singleton_self _
  exact List.mem_append_left _ (List.mem_append_left _ (List.mem_append_left _
    (List.mem_append_right _ hB)))

theorem mem_validate_replace (instr : PatchInstruction) (hop : instr.operation = .replace)
    (hc : falsyOpt instr.content = true) :
    requiredContentMsg "replace" ∈ validatePatchInstruction instr := by
  rw [validatePatchInstruction]
  have hC : requiredContentMsg "replace" ∈
      (if instr.operation = .replace ∧ falsyOpt instr.content then [requiredContentMsg "replace"]
        else []) := by
    rw [if_pos ⟨hop, hc⟩]
    exact List.mem_singleton_self _
  exact List.mem_append_left _ (List.mem_append_left _
    (List.mem_append_right _ hC))

theorem mem_validate_insert (instr : PatchInstruction) (hop : instr.operation = .insert)
    (hc : falsyOpt instr.content = true) :
    requiredContentMsg "insert" ∈ validatePatchInstruction instr := by
  rw [validatePatchInstruction]
  have hD : requiredContentMsg "insert" ∈
      (if instr.operation = .insert ∧ falsyOpt instr.content then [requiredContentMsg "insert"]
        else []) := by
    rw [if_pos ⟨hop, hc⟩]
    exact List.mem_singleton_self _
  exact List.mem_append_left _ (List.mem_append_right _ hD)

theorem mem_validate_delete (instr : PatchInstruction) (hop : instr.operation = .delete)
    (hc : falsyOpt instr.oldContent = true) :
    "oldContent is required for delete operation" ∈ validatePatchInstruction instr := by
  rw [validatePatchInstruction]
  have hE : "oldContent is required for delete operation" ∈
      (if instr.operation = .delete ∧ falsyOpt instr.oldContent then
        ["oldContent is required for delete operation"] else []) := by
    rw [if_pos ⟨hop, hc⟩]
    exact List.mem_singleton_self _
  exact List.mem_append_right _ hE

theorem validate_mem_of_empty_required (instr : PatchInstruction) :
    ((instr.operation = .add ∨ instr.operation = .insert ∨ instr.operation = .replace) ∧
        instr.content = some [] ∨
      instr.operation = .delete ∧ instr.oldContent = some []) →
    validatePatchInstruction instr ≠ [] := by
  intro hbad
  rcases hbad with ⟨hop, hc⟩ | ⟨hop, hc⟩
  · have hfalsy : falsyOpt instr.content = true := by rw [hc]; rfl
    rcases hop with hop | hop | hop
    · exact List.ne_nil_of_mem (mem_validate_add instr hop hfalsy)
    · exact List.ne_nil_of_mem (mem_validate_insert instr hop hfalsy)
    · exact List.ne_nil_of_mem (mem_validate_replace instr hop hfalsy)
  · have hfalsy : falsyOpt instr.oldContent = true := by rw [hc]; rfl
    exact List.ne_nil_of_mem (mem_validate_delete instr hop hfalsy)

theorem firstInvalid_isSome_of_mem (instrs : List PatchInstruction)
    (instr : PatchInstruction) (hmem : instr ∈ instrs)
    (hne : validatePatchInstruction instr ≠ []) :
    ∃ pr, firstInvalid instrs = some pr := by
  induction instrs with
  | nil => exact absurd hmem (by simp)
  | cons hd rest ih =>
    by_cases hhd : validatePatchInstruction hd = []
    · rcases List.mem_cons.mp hmem with heq | hmem'
      · exact absurd (heq ▸ hhd) hne
      · obtain ⟨pr, hpr⟩ := ih hmem'
        exact ⟨pr, by simp only [firstInvalid, if_pos hhd, hpr]⟩
    · exact ⟨(hd, validatePatchInstruction hd), by simp only [firstInvalid, if_neg hhd]⟩

/-- C10: an empty-string required field is treated like an absent one:
an add/insert/replace instruction whose `content` is the empty string (or a
delete whose `oldContent` is the empty string) fails validation with the
corresponding required-field message, and any batch containing such an
instruction makes `generate_patch` return `success = false` with no patch —
so an empty file cannot be created through this interface. -/
theorem generate_patch_empty_required_field :
    (∀ instr : PatchInstruction, instr.content = some [] →
      (instr.operation = .add → requiredContentMsg "add" ∈ validatePatchInstruction instr) ∧
      (instr.operation = .insert → requiredContentMsg "insert" ∈ validatePatchInstruction instr) ∧
      (instr.operation = .replace → requiredContentMsg "replace" ∈ validatePatchInstruction instr)) ∧
    (∀ instr : PatchInstruction, instr.oldContent = some [] → instr.operation = .delete →
      "oldContent is required for delete operation" ∈ validatePatchInstruction instr) ∧
    (∀ (α : Type) (parseFn : List Char → Except String (List α)) (fs : FS)
      (instrs : List PatchInstruction) (instr : PatchInstruction),
      instr ∈ instrs →
      ((instr.operation = .add ∨ instr.operation = .insert ∨ instr.operation = .replace) ∧
          instr.content = some [] ∨
        instr.operation = .delete ∧ instr.oldContent = some []) →
      (generate_patch parseFn fs instrs).success = false ∧
        (generate_patch parseFn fs instrs).patch = Option.none) := by
  refine ⟨?content, ?old, ?batch⟩
  case content =>
    intro instr hc
    have hfalsy : falsyOpt instr.content = true := by rw [hc]; rfl
    exact ⟨fun hop => mem_validate_add instr hop hfalsy,
      fun hop => mem_validate_insert instr hop hfalsy,
      fun hop => mem_validate_replace instr hop hfalsy⟩
  case old =>
    intro instr hc hop
    have hfalsy : falsyOpt instr.oldContent = true := by rw [hc]; rfl
    exact mem_validate_delete instr hop hfalsy
  case batch =>
    intro α parseFn fs instrs instr hmem hbad
    obtain ⟨pr, hpr⟩ := firstInvalid_isSome_of_mem instrs instr hmem
      (validate_mem_of_empty_required instr hbad)
    rw [generate_patch, hpr]
    exact ⟨rfl, rfl⟩

/-- Witness for C10: an `add` instruction with empty content is rejected and
the batch produces no patch. -/
theorem generate_patch_empty_required_field_witness :
    (({ file := "e.txt".toList, operation := .add, content := some [] } :
        PatchInstruction) ∈
      [({ file := "e.txt".toList, operation := .add, content := some [] } :
        PatchInstruction)]) ∧
    (generate_patch (fun _ => .ok ([] : List Unit)) witFsEmpty
        [{ file := "e.txt".toList, operation := .add, content := some [] }]).success = false ∧
    (generate_patch (fun _ => .ok ([] : List Unit)) witFsEmpty
        [{ file := "e.txt".toList, operation := .add, content := some [] }]).patch =
      Option.none := by
  refine ⟨by simp, ?_⟩
  exact generate_patch_empty_required_field.2.2 Unit (fun _ => .ok ([] : List Unit))
    witFsEmpty [{ file := "e.txt".toList, operation := .add, content := some [] }]
    { file := "e.txt".toList, operation := .add, content := some [] }
    (by simp) (Or.inl ⟨Or.inl rfl, rfl⟩)

/-! ## C6 -/

theorem countP_headEq_map_cons {β : Type} (c c' : Char) (g : β → List Char) (l : List β) :
    (l.map (fun b => c :: g b)).countP (fun s => s.head? = some c') =
      if c = c' then l.length else 0 := by
  rw [List.countP_map]
  by_cases h : c = c'
  · rw [if_pos h]
    exact List.countP_eq_length.mpr (fun b _ => by simp [Function.comp, h])
  · rw [if_neg h]
    exact List.countP_eq_zero.mpr (fun b _ => by simp [Function.comp, h])

theorem countP_ctx_minus (lines : List (List Char)) (l : List Nat) :
    (l.map (ctxLine lines)).countP (fun s => s.head? = some '-') = 0 := by
  have h := countP_headEq_map_cons ' ' '-' (lineAt lines) l
  rw [if_neg (by decide)] at h
  exact h

theorem countP_ctx_plus (lines : List (List Char)) (l : List Nat) :
    (l.map (ctxLine lines)).countP (fun s => s.head? = some '+') = 0 := by
  have h := countP_headEq_map_cons ' ' '+' (lineAt lines) l
  rw [if_neg (by decide)] at h
  exact h

theorem countP_rem_minus (lines : List (List Char)) (l : List Nat) :
    (l.map (remLine lines)).countP (fun s => s.head? = some '-') = l.length := by
  have h := countP_headEq_map_cons '-' '-' (lineAt lines) l
  rw [if_pos rfl] at h
  exact h

theorem countP_rem_plus (lines : List (List Char)) (l : List Nat) :
    (l.map (remLine lines)).countP (fun s => s.head? = some '+') = 0 := by
  have h := countP_headEq_map_cons '-' '+' (lineAt lines) l
  rw [if_neg (by decide)] at h
  exact h

theorem countP_add_minus (l : List (List Char)) :
    (l.map addLine).countP (fun s => s.head? = some '-') = 0 := by
  have h := countP_headEq_map_cons '+' '-' (fun x : List Char => x) l
  rw [if_neg (by decide)] at h
  exact h

theorem countP_add_plus (l : List (List Char)) :
    (l.map addLine).countP (fun s => s.head? = some '+') = l.length := by
  have h := countP_headEq_map_cons '+' '+' (fun x : List Char => x) l
  rw [if_pos rfl] at h
  exact h

theorem countP_remWhole_minus (l : List (List Char)) :
    (l.map remWholeLine).countP (fun s => s.head? = some '-') = l.length := by
  have h := countP_headEq_map_cons '-' '-' (fun x : List Char => x) l
  rw [if_pos rfl] at h
  exact h

theorem countP_remWhole_plus (l : List (List Char)) :
    (l.map remWholeLine).countP (fun s => s.head? = some '+') = 0 := by
  have h := countP_headEq_map_cons '-' '+' (fun x : List Char => x) l
  rw [if_neg (by decide)] at h
  exact h

theorem findBlockRange_le (lines : List (List Char)) (old : List Char) (s e : Nat)
    (h : findBlockRange lines old = some (s, e)) : s ≤ e := by
  rw [findBlockRange] at h
  by_cases hb : old = []
  · rw [if_pos hb] at h; exact absurd h (by simp)
  · rw [if_neg hb] at h
    cases hidx : indexOfFrom (joinLines lines) old 0 with
    | none =>
      simp only [hidx] at h
      exact absurd h (by simp)
    | some idx =>
      simp only [hidx] at h
      injection h with h'
      have hcnt : 1 ≤ (splitOnChar '\n' old).length :=
        List.length_pos.mpr (splitOnChar_ne_nil '\n' old)
      have hs : s = if (joinLines lines).take idx = [] then 0
          else (splitOnChar '\n' ((joinLines lines).take idx)).length - 1 := by
        have := congrArg Prod.fst h'
        simpa using this.symm
      have he : e = (if (joinLines lines).take idx = [] then 0
          else (splitOnChar '\n' ((joinLines lines).take idx)).length - 1) +
          (splitOnChar '\n' old).length - 1 := by
        have := congrArg Prod.snd h'
        simpa using this.symm
      omega

theorem locateOldContent_le (lines : List (List Char)) (line : Nat) (old : List Char)
    (rs re : Nat) (h : locateOldContent lines line old = .ok (rs, re)) : rs ≤ re := by
  rw [locateOldContent] at h
  by_cases h1 : lines[line]? = some old
  · rw [if_pos h1] at h
    injection h with h'
    have : rs = line ∧ re = line := by
      constructor
      · exact congrArg Prod.fst h'.symm
      · exact congrArg Prod.snd h'.symm
    omega
  · rw [if_neg h1] at h
    cases h2 : windowFind lines line old with
    | some i =>
      simp only [h2] at h
      injection h with h'
      have : rs = i ∧ re = i := by
        constructor
        · exact congrArg Prod.fst h'.symm
        · exact congrArg Prod.snd h'.symm
      omega
    | none =>
      simp only [h2] at h
      cases h3 : findBlockRange lines old with
      | some r =>
        simp only [h3] at h
        injection h with h'
        subst h'
        exact findBlockRange_le lines old rs re h3
      | none =>
        simp only [h3] at h
        exact absurd h (by simp)

theorem fullFileReplaceHunk_header_arith (lines contentLines : List (List Char)) :
    (generateFullFileReplaceHunk lines contentLines).newLines =
      (generateFullFileReplaceHunk lines contentLines).oldLines -
        (removedCount (generateFullFileReplaceHunk lines contentLines) : Int) +
        (addedCount (generateFullFileReplaceHunk lines contentLines) : Int) := by
  simp only [generateFullFileReplaceHunk, removedCount, addedCount, List.countP_append,
    countP_remWhole_minus, countP_add_minus, countP_remWhole_plus, countP_add_plus]
  omega

/-- C6: every hunk emitted by the instruction compiler — insert, replace,
delete and full-file replace — satisfies
`newLineCount = oldLineCount - removedLineCount + addedLineCount`, where the
removed/added counts are the numbers of `-`/`+` body lines and the line counts
are the ones written into the `@@` header. -/
theorem genHunk_header_arithmetic :
    (∀ (lines : List (List Char)) (insertLine : Nat) (content : List Char) (h : GenHunk),
      generateInsertHunk lines insertLine content = .ok h →
      h.newLines = h.oldLines - (removedCount h : Int) + (addedCount h : Int)) ∧
    (∀ (lines : List (List Char)) (line : Nat) (oldContent newContent : List Char) (h : GenHunk),
      generateReplaceHunk lines line oldContent newContent = .ok h →
      h.newLines = h.oldLines - (removedCount h : Int) + (addedCount h : Int)) ∧
    (∀ (lines : List (List Char)) (line : Nat) (oldContent : List Char) (h : GenHunk),
      generateDeleteHunk lines line oldContent = .ok h →
      h.newLines = h.oldLines - (removedCount h : Int) + (addedCount h : Int)) ∧
    (∀ (lines contentLines : List (List Char)),
      (generateFullFileReplaceHunk lines contentLines).newLines =
        (generateFullFileReplaceHunk lines contentLines).oldLines -
          (removedCount (generateFullFileReplaceHunk lines contentLines) : Int) +
          (addedCount (generateFullFileReplaceHunk lines contentLines) : Int)) := by
  refine ⟨?ins, ?rep, ?del, fullFileReplaceHunk_header_arith⟩
  case ins =>
    intro lines insertLine content h hok
    simp only [generateInsertHunk] at hok
    split at hok
    · exact absurd hok (by simp)
    · injection hok with h'
      subst h'
      simp only [removedCount, addedCount, List.countP_append, countP_ctx_minus,
        countP_add_minus, countP_ctx_plus, countP_add_plus]
      omega
  case rep =>
    intro lines line oldContent newContent h hok
    simp only [generateReplaceHunk] at hok
    split at hok
    · exact absurd hok (by simp)
    · split at hok
      · injection hok with h'
        subst h'
        exact fullFileReplaceHunk_header_arith lines (splitOnChar '\n' newContent)
      · split at hok
        · injection hok with h'
          subst h'
          exact fullFileReplaceHunk_header_arith lines (splitOnChar '\n' newContent)
        · by_cases hoc : oldContent = []
          · rw [if_pos hoc] at hok
            simp only [bind, Except.bind, pure, Except.pure] at hok
            injection hok with h'
            subst h'
            simp only [removedCount, addedCount, List.countP_append, countP_ctx_minus,
              countP_rem_minus, countP_add_minus, countP_ctx_plus, countP_rem_plus,
              countP_add_plus, List.length_range']
            omega
          · rw [if_neg hoc] at hok
            simp only [bind, Except.bind] at hok
            cases hloc : locateOldContent lines line oldContent with
            | error e =>
              simp only [hloc] at hok
              exact absurd hok (by simp)
            | ok rsre =>
              obtain ⟨rs, re⟩ := rsre
              have hle : rs ≤ re := locateOldContent_le lines line oldContent rs re hloc
              simp only [hloc, pure, Except.pure] at hok
              injection hok with h'
              subst h'
              simp only [removedCount, addedCount, List.countP_append, countP_ctx_minus,
                countP_rem_minus, countP_add_minus, countP_ctx_plus, countP_rem_plus,
                countP_add_plus, List.length_range']
              omega
  case del =>
    intro lines line oldContent h hok
    simp only [generateDeleteHunk] at hok
    split at hok
    · exact absurd hok (by simp)
    · by_cases hoc : oldContent = []
      · rw [if_pos hoc] at hok
        simp only [bind, Except.bind, pure, Except.pure] at hok
        injection hok with h'
        subst h'
        simp only [removedCount, addedCount, List.countP_append, countP_ctx_minus,
          countP_rem_minus, countP_ctx_plus, countP_rem_plus, List.length_range']
        omega
      · rw [if_neg hoc] at hok
        simp only [bind, Except.bind] at hok
        cases hloc : locateOldContent lines line oldContent with
        | error e =>
          simp only [hloc] at hok
          exact absurd hok (by simp)
        | ok rsre =>
          obtain ⟨rs, re⟩ := rsre
          have hle : rs ≤ re := locateOldContent_le lines line oldContent rs re hloc
          simp only [hloc, pure, Except.pure] at hok
          injection hok with h'
          subst h'
          simp only [removedCount, addedCount, List.countP_append, countP_ctx_minus,
            countP_rem_minus, countP_ctx_plus, countP_rem_plus, List.length_range']
          omega

/-- Witness for C6 at concrete insert, replace and delete hunks on a
three-line file. -/
theorem genHunk_header_arithmetic_witness :
    (generateInsertHunk ["a".toList, "b".toList, "c".toList] 1 "x".toList =
        .ok ⟨1, 3, 1, 4, [" a".toList, "+x".toList, " b".toList, " c".toList]⟩ ∧
      generateReplaceHunk ["a".toList, "b".toList, "c".toList] 1 "b".toList "X\nY".toList =
        .ok ⟨1, 3, 1, 4, [" a".toList, "-b".toList, "+X".toList, "+Y".toList, " c".toList]⟩ ∧
      generateDeleteHunk ["a".toList, "b".toList, "c".toList] 1 "b".toList =
        .ok ⟨1, 3, 1, 2, [" a".toList, "-b".toList, " c".toList]⟩) ∧
    ((⟨1, 3, 1, 4, [" a".toList, "+x".toList, " b".toList, " c".toList]⟩ : GenHunk).newLines =
      (⟨1, 3, 1, 4, [" a".toList, "+x".toList, " b".toList, " c".toList]⟩ : GenHunk).oldLines -
        (removedCount ⟨1, 3, 1, 4, [" a".toList, "+x".toList, " b".toList, " c".toList]⟩ : Int) +
        (addedCount ⟨1, 3, 1, 4, [" a".toList, "+x".toList, " b".toList, " c".toList]⟩ : Int)) ∧
    ((⟨1, 3, 1, 4, [" a".toList, "-b".toList, "+X".toList, "+Y".toList, " c".toList]⟩ :
        GenHunk).newLines =
      (⟨1, 3, 1, 4, [" a".toList, "-b".toList, "+X".toList, "+Y".toList, " c".toList]⟩ :
        GenHunk).oldLines -
        (removedCount
          ⟨1, 3, 1, 4, [" a".toList, "-b".toList, "+X".toList, "+Y".toList, " c".toList]⟩ : Int) +
        (addedCount
          ⟨1, 3, 1, 4, [" a".toList, "-b".toList, "+X".toList, "+Y".toList, " c".toList]⟩ : Int)) ∧
    ((⟨1, 3, 1, 2, [" a".toList, "-b".toList, " c".toList]⟩ : GenHunk).newLines =
      (⟨1, 3, 1, 2, [" a".toList, "-b".toList, " c".toList]⟩ : GenHunk).oldLines -
        (removedCount ⟨1, 3, 1, 2, [" a".toList, "-b".toList, " c".toList]⟩ : Int) +
        (addedCount ⟨1, 3, 1, 2, [" a".toList, "-b".toList, " c".toList]⟩ : Int)) := by
  refine ⟨⟨by decide, by decide, by decide⟩, ?_, ?_, ?_⟩
  · exact genHunk_header_arithmetic.1 ["a".toList, "b".toList, "c".toList] 1 "x".toList
      ⟨1, 3, 1, 4, [" a".toList, "+x".toList, " b".toList, " c".toList]⟩ (by decide)
  · exact genHunk_header_arithmetic.2.1 ["a".toList, "b".toList, "c".toList] 1 "b".toList
      "X\nY".toList
      ⟨1, 3, 1, 4, [" a".toList, "-b".toList, "+X".toList, "+Y".toList, " c".toList]⟩ (by decide)
  · exact genHunk_header_arithmetic.2.2.1 ["a".toList, "b".toList, "c".toList] 1 "b".toList
      ⟨1, 3, 1, 2, [" a".toList, "-b".toList, " c".toList]⟩ (by decide)

/-! ## C3 -/

theorem indexOfFrom_some (hay needle : List Char) (s i : Nat) (hf : needle ≠ [])
    (h : indexOfFrom hay needle s = some i) : s ≤ i ∧ i < hay.length := by
  rw [indexOfFrom] at h
  have hp := List.find?_some h
  rw [Bool.and_eq_true, decide_eq_true_eq] at hp
  obtain ⟨hsi, hm⟩ := hp
  refine ⟨hsi, ?_⟩
  rw [matchesAt, List.isPrefixOf_iff_prefix] at hm
  have hlen := hm.length_le
  rw [List.length_drop] at hlen
  have hpos : 1 ≤ needle.length := List.length_pos.mpr hf
  omega

theorem findNthFrom_le (hay needle : List Char) (hf : needle ≠ []) :
    ∀ (n s i : Nat), findNthFrom hay needle s n = some i → s + n ≤ hay.length := by
  intro n
  induction n with
  | zero => intro s i h; simp [findNthFrom] at h
  | succ m ih =>
    intro s i h
    rw [findNthFrom] at h
    cases hidx : indexOfFrom hay needle s with
    | none => rw [hidx] at h; exact absurd h (by simp)
    | some idx =>
      rw [hidx] at h
      have h2 : (if m = 0 then some idx
          else findNthFrom hay needle (idx + needle.length) m) = some i := h
      obtain ⟨hsi, hil⟩ := indexOfFrom_some hay needle s idx hf hidx
      by_cases hm : m = 0
      · omega
      · rw [if_neg hm] at h2
        have hrec := ih (idx + needle.length) i h2
        have hpos : 1 ≤ needle.length := List.length_pos.mpr hf
        omega

theorem occIdxsAux_length_le (hay needle : List Char) :
    ∀ (fuel s : Nat), (occIdxsAux hay needle s fuel).length ≤ fuel := by
  intro fuel
  induction fuel with
  | zero => intro s; simp [occIdxsAux]
  | succ k ih =>
    intro s
    rw [occIdxsAux]
    cases hidx : indexOfFrom hay needle s with
    | none => simp
    | some idx =>
      simp only [List.length_cons]
      have := ih (idx + needle.length)
      omega

theorem findNthFrom_eq_occAux (hay needle : List Char) :
    ∀ (n fuel s : Nat), 1 ≤ n → n ≤ fuel →
      findNthFrom hay needle s n = (occIdxsAux hay needle s fuel)[n - 1]? := by
  intro n
  induction n with
  | zero => intro fuel s h; omega
  | succ m ih =>
    intro fuel s _ hle
    cases fuel with
    | zero => omega
    | succ k =>
      rw [findNthFrom, occIdxsAux]
      cases hidx : indexOfFrom hay needle s with
      | none => simp
      | some idx =>
        show (if m = 0 then some idx else findNthFrom hay needle (idx + needle.length) m) =
          (idx :: occIdxsAux hay needle (idx + needle.length) k)[m + 1 - 1]?
        by_cases hm : m = 0
        · subst hm; simp
        · rw [if_neg hm]
          have h1 : 1 ≤ m := by omega
          have h2 : m ≤ k := by omega
          rw [ih k (idx + needle.length) h1 h2]
          cases m with
          | zero => omega
          | succ m' => simp

theorem findNthIndex_eq_occ (hay needle : List Char) (n : Nat) (hf : needle ≠ [])
    (hn : 1 ≤ n) : findNthIndex hay needle n = (occurrenceIdxs hay needle)[n - 1]? := by
  by_cases hle : n ≤ hay.length + 1
  · exact findNthFrom_eq_occAux hay needle n (hay.length + 1) 0 hn hle
  · have hL : findNthIndex hay needle n = none := by
      cases hfi : findNthIndex hay needle n with
      | none => rfl
      | some i =>
        have := findNthFrom_le hay needle hf n 0 i hfi
        omega
    have hR : (occurrenceIdxs hay needle)[n - 1]? = none := by
      apply List.getElem?_eq_none
      have := occIdxsAux_length_le hay needle (hay.length + 1) 0
      rw [occurrenceIdxs]
      omega
    rw [hL, hR]

theorem applyEditsToText_single_ok (t : List Char) (e : Edit) (c : ConcreteEdit)
    (h : resolveEdit t e = .ok c) :
    applyEditsToText t [e] = .ok (t.take c.start ++ c.text ++ t.drop c.stop) := by
  have h1 : resolveEdits t [e] = .ok [c] := by
    simp only [resolveEdits, h, bind, Except.bind, pure, Except.pure]
  have h2 : anyOverlap [c] = false := by simp [anyOverlap, overlapsAny]
  simp only [applyEditsToText, h1, bind, Except.bind, h2, Bool.false_eq_true, if_false,
    spliceAll, sortByStartDesc, List.foldr, insertDesc, List.foldl, pure, Except.pure]

theorem applyEditsToText_single_err (t : List Char) (e : Edit) (m : String)
    (h : resolveEdit t e = .error m) : applyEditsToText t [e] = .error m := by
  have h1 : resolveEdits t [e] = .error m := by
    simp only [resolveEdits, h, bind, Except.bind]
  simp only [applyEditsToText, h1, bind, Except.bind]

/-- C3: for a non-empty literal find string and 1-based occurrence number `n`
(defaulting to 1 when unspecified), when the text has an `n`-th occurrence —
in the sense of the sequential `indexOf` scan that advances past each prior
match — a replace/insertAfter/delete edit targeting occurrence `n` resolves
to exactly that occurrence and applying it rewrites only that range; when
there are fewer than `n` such occurrences, resolution fails with the
token-not-found error for that edit kind rather than skipping the edit. -/
theorem applyEditsToText_occurrence_targeting :
    ∀ (t f r ins : List Char) (n : Nat), f ≠ [] → 1 ≤ n →
      ((∀ i, (occurrenceIdxs t f)[n - 1]? = some i →
        applyEditsToText t [.replace f r (some n)] =
          .ok (t.take i ++ r ++ t.drop (i + f.length)) ∧
        applyEditsToText t [.insertAfter f ins (some n)] =
          .ok (t.take (i + f.length) ++ ins ++ t.drop (i + f.length)) ∧
        applyEditsToText t [.delete f (some n)] =
          .ok (t.take i ++ t.drop (i + f.length))) ∧
      ((occurrenceIdxs t f).length < n →
        applyEditsToText t [.replace f r (some n)] =
          .error (tokenNotFoundMsg "replace" f n) ∧
        applyEditsToText t [.insertAfter f ins (some n)] =
          .error (tokenNotFoundMsg "insertAfter" f n) ∧
        applyEditsToText t [.delete f (some n)] =
          .error (tokenNotFoundMsg "delete" f n)) ∧
      (applyEditsToText t [.replace f r Option.none] =
          applyEditsToText t [.replace f r (some 1)] ∧
        applyEditsToText t [.insertAfter f ins Option.none] =
          applyEditsToText t [.insertAfter f ins (some 1)] ∧
        applyEditsToText t [.delete f Option.none] =
          applyEditsToText t [.delete f (some 1)])) := by
  intro t f r ins n hf hn
  refine ⟨?found, ?missing, rfl, rfl, rfl⟩
  case found =>
    intro i hocc
    have hfi : findNthIndex t f n = some i := by
      rw [findNthIndex_eq_occ t f n hf hn, hocc]
    refine ⟨?_, ?_, ?_⟩
    · have hres : resolveEdit t (.replace f r (some n)) = .ok ⟨i, i + f.length, r⟩ := by
        simp only [resolveEdit, Option.getD_some, hfi]
      exact applyEditsToText_single_ok t _ _ hres
    · have hres : resolveEdit t (.insertAfter f ins (some n)) =
          .ok ⟨i + f.length, i + f.length, ins⟩ := by
        simp only [resolveEdit, Option.getD_some, hfi]
      exact applyEditsToText_single_ok t _ _ hres
    · have hres : resolveEdit t (.delete f (some n)) = .ok ⟨i, i + f.length, []⟩ := by
        simp only [resolveEdit, Option.getD_some, hfi]
      have := applyEditsToText_single_ok t _ _ hres
      simpa using this
  case missing =>
    intro hlen
    have hfi : findNthIndex t f n = none := by
      rw [findNthIndex_eq_occ t f n hf hn]
      exact List.getElem?_eq_none (by omega)
    refine ⟨?_, ?_, ?_⟩
    · exact applyEditsToText_single_err t _ _ (by simp only [resolveEdit, Option.getD_some, hfi])
    · exact applyEditsToText_single_err t _ _ (by simp only [resolveEdit, Option.getD_some, hfi])
    · exact applyEditsToText_single_err t _ _ (by simp only [resolveEdit, Option.getD_some, hfi])

/-- Witness for C3 on `"a a a"` with find `"a"`, occurrence 2: the second
occurrence sits at index 2 and only it is rewritten, giving `"a A a"`. -/
theorem applyEditsToText_occurrence_targeting_witness :
    ("a".toList ≠ [] ∧ 1 ≤ 2 ∧ (occurrenceIdxs "a a a".toList "a".toList)[2 - 1]? = some 2 ∧
      applyEditsToText "a a a".toList [.replace "a".toList "A".toList (some 2)] =
        .ok "a A a".toList) ∧
    (applyEditsToText "a a a".toList [.replace "a".toList "A".toList (some 2)] =
        .ok ("a a a".toList.take 2 ++ "A".toList ++ "a a a".toList.drop (2 + "a".toList.length)) ∧
      applyEditsToText "a a a".toList [.insertAfter "a".toList "!".toList (some 2)] =
        .ok ("a a a".toList.take (2 + "a".toList.length) ++ "!".toList ++
          "a a a".toList.drop (2 + "a".toList.length)) ∧
      applyEditsToText "a a a".toList [.delete "a".toList (some 2)] =
        .ok ("a a a".toList.take 2 ++ "a a a".toList.drop (2 + "a".toList.length))) := by
  refine ⟨⟨by decide, by decide, by decide, by decide⟩, ?_⟩
  exact (applyEditsToText_occurrence_targeting "a a a".toList "a".toList "A".toList "!".toList 2
    (by decide) (by decide)).1 2 (by decide)

/-! ## C5 -/

theorem writeFullFileBlocks_len (blocks : List (List Char)) :
    ∀ (st : FS × List (List Char)),
      (writeFullFileBlocks st blocks).2.length = st.2.length + blocks.length := by
  induction blocks with
  | nil => intro st; simp [writeFullFileBlocks]
  | cons b rest ih =>
    intro st
    rw [writeFullFileBlocks, ih]
    simp only [List.length_append, List.length_cons, List.length_nil]
    omega

theorem applyDiffPatches_skip (applyFn : List Char → ParsedPatch → Option (List Char)) :
    ∀ (ps : List ParsedPatch) (st : FS × List (List Char)),
      (∀ p ∈ ps, fileNameOf p = []) → ps.foldl (diffApplyStep applyFn) st = st := by
  intro ps
  induction ps with
  | nil => intro st _; rfl
  | cons p rest ih =>
    intro st hall
    rw [List.foldl_cons]
    have hstep : diffApplyStep applyFn st p = st := by
      simp only [diffApplyStep, if_pos (hall p (List.mem_cons_self p rest))]
    rw [hstep]
    exact ih st (fun q hq => hall q (List.mem_cons_of_mem p hq))

theorem write_patch_cases (strict : List Char → Except String (List ParsedPatch))
    (applyFn : List Char → ParsedPatch → Option (List Char)) (fs : FS) (input : List Char) :
    (∃ (fs1 : FS) (rep : List (List Char)), rep ≠ [] ∧
      write_patch strict applyFn fs input = (fs1, ⟨rep, Mode.diff, Option.none⟩)) ∨
    (∃ (fs2 : FS) (rep2 : List (List Char)), rep2 ≠ [] ∧
      write_patch strict applyFn fs input = (fs2, ⟨rep2, Mode.fullFile, Option.none⟩)) ∨
    (∃ fs1 : FS, write_patch strict applyFn fs input =
      (fs1, ⟨[], Mode.none, some "No recognized patch blocks"⟩)) := by
  by_cases h1 : (applyDiffPatches applyFn fs (parseDiffPatch strict (unescape input))).2 ≠ []
  · refine Or.inl ⟨(applyDiffPatches applyFn fs (parseDiffPatch strict (unescape input))).1,
      (applyDiffPatches applyFn fs (parseDiffPatch strict (unescape input))).2, h1, ?_⟩
    simp only [write_patch, if_pos h1]
  · by_cases h2 : 1 < (splitFileBlocks (unescape input)).length
    · refine Or.inr (Or.inl
        ⟨(writeFullFileBlocks
            ((applyDiffPatches applyFn fs (parseDiffPatch strict (unescape input))).1,
              (applyDiffPatches applyFn fs (parseDiffPatch strict (unescape input))).2)
            ((splitFileBlocks (unescape input)).drop 1)).1,
          (writeFullFileBlocks
            ((applyDiffPatches applyFn fs (parseDiffPatch strict (unescape input))).1,
              (applyDiffPatches applyFn fs (parseDiffPatch strict (unescape input))).2)
            ((splitFileBlocks (unescape input)).drop 1)).2, ?ne, ?eq⟩)
      case ne =>
        rw [not_not] at h1
        have hlen := writeFullFileBlocks_len ((splitFileBlocks (unescape input)).drop 1)
          ((applyDiffPatches applyFn fs (parseDiffPatch strict (unescape input))).1,
            (applyDiffPatches applyFn fs (parseDiffPatch strict (unescape input))).2)
        intro hnil
        rw [hnil] at hlen
        rw [h1] at hlen
        simp only [List.length_nil, List.length_drop] at hlen
        omega
      case eq =>
        simp only [write_patch, if_neg h1, if_pos h2]
    · refine Or.inr (Or.inr
        ⟨(applyDiffPatches applyFn fs (parseDiffPatch strict (unescape input))).1, ?_⟩)
      simp only [write_patch, if_neg h1, if_neg h2]

/-- C5: `write_patch` always returns a `PatchApplicationResult` (the model is
total, so no exception escapes); whenever no path writes any file the result
is `applied = []`, `mode = "none"` with the explanatory error; and the
unrecognizable input `"This is not a valid patch"` — on which the strict
parser yields no patch carrying a file name (the tolerant fallback parses it
to no patches at all) — returns exactly `{applied: [], mode: "none"}` and
leaves the file system untouched. -/
theorem write_patch_degrades :
    (∀ (strict : List Char → Except String (List ParsedPatch))
      (applyFn : List Char → ParsedPatch → Option (List Char)) (fs : FS) (input : List Char),
      (write_patch strict applyFn fs input).2.applied = [] →
      (write_patch strict applyFn fs input).2.mode = Mode.none ∧
      (write_patch strict applyFn fs input).2.error = some "No recognized patch blocks") ∧
    (∀ (strict : List Char → Except String (List ParsedPatch))
      (applyFn : List Char → ParsedPatch → Option (List Char)) (fs : FS),
      (∀ p ∈ parseDiffPatch strict "This is not a valid patch".toList, fileNameOf p = []) →
      write_patch strict applyFn fs "This is not a valid patch".toList =
        (fs, ⟨[], Mode.none, some "No recognized patch blocks"⟩)) := by
  constructor
  · intro strict applyFn fs input happ
    rcases write_patch_cases strict applyFn fs input with
      ⟨fs1, rep, hne, heq⟩ | ⟨fs2, rep2, hne, heq⟩ | ⟨fs1, heq⟩
    · rw [heq] at happ
      exact absurd happ hne
    · rw [heq] at happ
      exact absurd happ hne
    · rw [heq]
      exact ⟨rfl, rfl⟩
  · intro strict applyFn fs hp
    have hu : unescape "This is not a valid patch".toList =
        "This is not a valid patch".toList := by decide
    have hskip : applyDiffPatches applyFn fs
        (parseDiffPatch strict "This is not a valid patch".toList) = (fs, []) :=
      applyDiffPatches_skip applyFn (parseDiffPatch strict "This is not a valid patch".toList)
        (fs, []) hp
    have hsplit : splitFileBlocks "This is not a valid patch".toList =
        ["This is not a valid patch".toList] := by decide
    simp only [write_patch, hu, hskip, hsplit]
    norm_num

/-- Witness for C5 at the always-throwing strict parser: on garbage input the
tolerant parser finds nothing and the result is mode `none` with no writes. -/
theorem write_patch_degrades_witness :
    (∀ p ∈ parseDiffPatch witStrictFail "This is not a valid patch".toList,
      fileNameOf p = []) ∧
    write_patch witStrictFail witApplyNone witFsEmpty "This is not a valid patch".toList =
      (witFsEmpty, ⟨[], Mode.none, some "No recognized patch blocks"⟩) := by
  refine ⟨by decide, ?_⟩
  exact write_patch_degrades.2 witStrictFail witApplyNone witFsEmpty (by decide)

/-! ## C8 -/

theorem splitOnChar_append (c : Char) (a b : List Char) (ha : c ∉ a) :
    splitOnChar c (a ++ c :: b) = a :: splitOnChar c b := by
  induction a with
  | nil => simp [splitOnChar]
  | cons x xs ih =>
    have hx : x ≠ c := by
      intro h
      exact ha (h ▸ List.mem_cons_self x xs)
    have hxs : c ∉ xs := fun h => ha (List.mem_cons_of_mem x h)
    rw [List.cons_append, splitOnChar, if_neg hx, ih hxs]

theorem joinLines_splitOnChar (l : List Char) : joinLines (splitOnChar '\n' l) = l := by
  induction l with
  | nil => rfl
  | cons x xs ih =>
    rw [splitOnChar]
    by_cases hx : x = '\n'
    · rw [if_pos hx]
      cases heq : splitOnChar '\n' xs with
      | nil => exact absurd heq (splitOnChar_ne_nil '\n' xs)
      | cons y ys =>
        have : joinLines ([] :: y :: ys) = '\n' :: joinLines (y :: ys) := rfl
        rw [this, ← heq, ih, hx]
    · rw [if_neg hx]
      cases heq : splitOnChar '\n' xs with
      | nil => exact absurd heq (splitOnChar_ne_nil '\n' xs)
      | cons y ys =>
        simp only [heq]
        cases ys with
        | nil =>
          have h1 : joinLines [x :: y] = x :: y := rfl
          have h2 : joinLines [y] = y := rfl
          rw [h1]
          rw [heq] at ih
          rw [h2] at ih
          rw [ih]
        | cons z zs =>
          have h1 : joinLines ((x :: y) :: z :: zs) = (x :: y) ++ '\n' :: joinLines (z :: zs) :=
            rfl
          have h2 : joinLines (y :: z :: zs) = y ++ '\n' :: joinLines (z :: zs) := rfl
          rw [heq, h2] at ih
          rw [h1, List.cons_append, ih]

theorem dropTrailingWs_concat_nonws (l : List Char) (c : Char) (hc : c.isWhitespace = false) :
    dropTrailingWs (l ++ [c]) = l ++ [c] := by
  simp [dropTrailingWs, hc]

theorem dropTrailingWs_concat_ws (l : List Char) (c : Char) (hc : c.isWhitespace = true) :
    dropTrailingWs (l ++ [c]) = dropTrailingWs l := by
  simp [dropTrailingWs, hc]

theorem dropTrailingWs_idem (l : List Char) :
    dropTrailingWs (dropTrailingWs l) = dropTrailingWs l := by
  simp only [dropTrailingWs, List.reverse_reverse, List.dropWhile_idempotent]

theorem jsTrim_dropTrailingWs (l : List Char) : jsTrim (dropTrailingWs l) = jsTrim l := by
  rw [jsTrim, jsTrim, dropTrailingWs_idem]

theorem dropTrailingWs_header (path : List Char) :
    dropTrailingWs (path ++ " ===".toList) = path ++ " ===".toList := by
  have h := dropTrailingWs_concat_nonws (path ++ [' ', '=', '=']) '=' (by decide)
  have he : (path ++ [' ', '=', '=']) ++ ['='] = path ++ " ===".toList := by
    rw [List.append_assoc]
    rfl
  rw [he] at h
  exact h

theorem stripTrailingMarker_header (path : List Char) :
    stripTrailingMarker (path ++ " ===".toList) = dropTrailingWs (path ++ [' ']) := by
  rw [stripTrailingMarker, dropTrailingWs_header]
  have hsuf : "===".toList.isSuffixOf (path ++ " ===".toList) = true := by
    rw [List.isSuffixOf_iff_suffix]
    have he : path ++ " ===".toList = (path ++ [' ']) ++ "===".toList := by
      rw [List.append_assoc]
      rfl
    rw [he]
    exact List.suffix_append _ _
  rw [if_pos hsuf]
  congr 1
  have hl4 : (" ===".toList).length = 4 := rfl
  rw [List.length_append, hl4]
  have hn : path.length + 4 - 3 = path.length + 1 := by omega
  rw [hn, List.take_append_eq_append_take]
  rw [List.take_of_length_le (by omega)]
  have hn2 : path.length + 1 - path.length = 1 := by omega
  rw [hn2]
  rfl

theorem header_file (path : List Char) :
    jsTrim (stripTrailingMarker (path ++ " ===".toList)) = jsTrim path := by
  rw [stripTrailingMarker_header, jsTrim_dropTrailingWs, jsTrim,
    dropTrailingWs_concat_ws path ' ' (by decide)]
  rfl

theorem no_nl_header (path : List Char) (hnl : '\n' ∉ path) :
    '\n' ∉ path ++ " ===".toList := by
  intro hmem
  rcases List.mem_append.mp hmem with h | h
  · exact hnl h
  · exact absurd h (by decide)

theorem processBlock_marker (path body : List Char) (hnl : '\n' ∉ path)
    (hidx : indexOfFrom ((path ++ " ===".toList) ++ '\n' :: (body ++ endMarker)) endMarker 0 =
      some (path.length + 5 + body.length)) :
    processBlock ((path ++ " ===".toList) ++ '\n' :: (body ++ endMarker)) =
      (jsTrim path, body) := by
  rw [processBlock]
  have hsplit : splitOnChar '\n' ((path ++ " ===".toList) ++ '\n' :: (body ++ endMarker)) =
      (path ++ " ===".toList) :: splitOnChar '\n' (body ++ endMarker) :=
    splitOnChar_append '\n' _ _ (no_nl_header path hnl)
  have hl4 : (" ===".toList).length = 4 := rfl
  have hlenA : (path ++ " ===".toList).length = path.length + 4 := by
    rw [List.length_append, hl4]
  have hlenM : endMarker.length = 11 := rfl
  have hreassoc : (path ++ " ===".toList) ++ '\n' :: (body ++ endMarker) =
      ((path ++ " ===".toList) ++ '\n' :: body) ++ endMarker := by
    simp [List.append_assoc]
  have hlenP : ((path ++ " ===".toList) ++ '\n' :: body).length =
      path.length + 5 + body.length := by
    rw [List.length_append, hlenA, List.length_cons]
    omega
  have hlenB : ((path ++ " ===".toList) ++ '\n' :: (body ++ endMarker)).length =
      path.length + 5 + body.length + 11 := by
    rw [List.length_append, hlenA, List.length_cons, List.length_append, hlenM]
    omega
  have hsub : substringJS ((path ++ " ===".toList) ++ '\n' :: (body ++ endMarker))
      (path.length + 4) (path.length + 5 + body.length) = '\n' :: body := by
    simp only [substringJS, hlenA, hlenB]
    have hmin1 : min (path.length + 4) (path.length + 5 + body.length + 11) =
        path.length + 4 := by omega
    have hmin2 : min (path.length + 5 + body.length) (path.length + 5 + body.length + 11) =
        path.length + 5 + body.length := by omega
    rw [hmin1, hmin2]
    have hmax : max (path.length + 4) (path.length + 5 + body.length) =
        path.length + 5 + body.length := by omega
    have hmin3 : min (path.length + 4) (path.length + 5 + body.length) =
        path.length + 4 := by omega
    rw [hmax, hmin3, hreassoc, List.take_left' hlenP, ← hlenA, List.drop_left]
  rw [hsplit]
  simp only [List.headD_cons, hidx, hlenA]
  rw [hsub]
  simp
  exact header_file path

theorem processBlock_nomarker (path body : List Char) (hnl : '\n' ∉ path)
    (hidx : indexOfFrom ((path ++ " ===".toList) ++ '\n' :: body) endMarker 0 = none) :
    processBlock ((path ++ " ===".toList) ++ '\n' :: body) = (jsTrim path, body) := by
  rw [processBlock]
  have hsplit : splitOnChar '\n' ((path ++ " ===".toList) ++ '\n' :: body) =
      (path ++ " ===".toList) :: splitOnChar '\n' body :=
    splitOnChar_append '\n' _ _ (no_nl_header path hnl)
  rw [hsplit]
  simp only [List.headD_cons, hidx, List.drop_one, List.tail_cons, joinLines_splitOnChar,
    header_file]

set_option maxHeartbeats 1600000 in
/-- C8: in full-file mode each block contributes one write: the path is the
header line with the trailing `===` marker stripped and trimmed, and the body
written is exactly the text between the header line and the first
`=== end ===` marker (byte-exact, including trailing newlines); when no end
marker is present, the whole remainder of the block is written as the body. -/
theorem write_patch_full_file_block :
    (∀ (strict : List Char → Except String (List ParsedPatch))
      (applyFn : List Char → ParsedPatch → Option (List Char)) (fs : FS) (path body : List Char),
      '\n' ∉ path →
      unescape (fileMarker ++ (path ++ " ===".toList) ++ '\n' :: (body ++ endMarker)) =
        fileMarker ++ (path ++ " ===".toList) ++ '\n' :: (body ++ endMarker) →
      (∀ p ∈ parseDiffPatch strict
        (fileMarker ++ (path ++ " ===".toList) ++ '\n' :: (body ++ endMarker)),
        fileNameOf p = []) →
      splitFileBlocks (fileMarker ++ (path ++ " ===".toList) ++ '\n' :: (body ++ endMarker)) =
        [[], (path ++ " ===".toList) ++ '\n' :: (body ++ endMarker)] →
      indexOfFrom ((path ++ " ===".toList) ++ '\n' :: (body ++ endMarker)) endMarker 0 =
        some (path.length + 5 + body.length) →
      write_patch strict applyFn fs
          (fileMarker ++ (path ++ " ===".toList) ++ '\n' :: (body ++ endMarker)) =
        (fsWrite fs (jsTrim path) body,
          ⟨[jsTrim path], Mode.fullFile, Option.none⟩)) ∧
    (∀ (strict : List Char → Except String (List ParsedPatch))
      (applyFn : List Char → ParsedPatch → Option (List Char)) (fs : FS) (path body : List Char),
      '\n' ∉ path →
      unescape (fileMarker ++ (path ++ " ===".toList) ++ '\n' :: body) =
        fileMarker ++ (path ++ " ===".toList) ++ '\n' :: body →
      (∀ p ∈ parseDiffPatch strict (fileMarker ++ (path ++ " ===".toList) ++ '\n' :: body),
        fileNameOf p = []) →
      splitFileBlocks (fileMarker ++ (path ++ " ===".toList) ++ '\n' :: body) =
        [[], (path ++ " ===".toList) ++ '\n' :: body] →
      indexOfFrom ((path ++ " ===".toList) ++ '\n' :: body) endMarker 0 = none →
      write_patch strict applyFn fs (fileMarker ++ (path ++ " ===".toList) ++ '\n' :: body) =
        (fsWrite fs (jsTrim path) body,
          ⟨[jsTrim path], Mode.fullFile, Option.none⟩)) := by
  constructor
  · intro strict applyFn fs path body hnl hu hp hsplit hidx
    have hskip : applyDiffPatches applyFn fs (parseDiffPatch strict
        (fileMarker ++ (path ++ " ===".toList) ++ '\n' :: (body ++ endMarker))) = (fs, []) :=
      applyDiffPatches_skip applyFn _ (fs, []) hp
    have hpb := processBlock_marker path body hnl hidx
    simp only [write_patch, hu, hskip, hsplit, List.drop_succ_cons, List.drop_zero,
      writeFullFileBlocks, hpb, List.nil_append]
    norm_num
  · intro strict applyFn fs path body hnl hu hp hsplit hidx
    have hskip : applyDiffPatches applyFn fs (parseDiffPatch strict
        (fileMarker ++ (path ++ " ===".toList) ++ '\n' :: body)) = (fs, []) :=
      applyDiffPatches_skip applyFn _ (fs, []) hp
    have hpb := processBlock_nomarker path body hnl hidx
    simp only [write_patch, hu, hskip, hsplit, List.drop_succ_cons, List.drop_zero,
      writeFullFileBlocks, hpb, List.nil_append]
    norm_num

/-- Witness for C8: the block `=== file:f ===\nHello\n=== end ===` writes
exactly `"Hello\n"` to `f`. -/
theorem write_patch_full_file_block_witness :
    write_patch witStrictFail witApplyNone witFsEmpty
        (fileMarker ++ ("f".toList ++ " ===".toList) ++ '\n' :: ("Hello\n".toList ++ endMarker)) =
      (fsWrite witFsEmpty (jsTrim "f".toList) "Hello\n".toList,
        ⟨[jsTrim "f".toList], Mode.fullFile, Option.none⟩) := by
  exact write_patch_full_file_block.1 witStrictFail witApplyNone witFsEmpty "f".toList
    "Hello\n".toList (by decide) (by decide) (by decide) (by decide) (by decide)

end AgentLoop

